import Mathlib

/-!
# Process table and scheduler of xv6 (proc.c): a shallow embedding

The process table `ptable.proc` is a list of slots (its length is `NPROC`), a
pointer to a slot is the slot's index, and the null pointer is `none` (for
`struct proc *`) or the address `0` (for opaque handles).  Code that runs under
`ptable.lock` is a function on the table, the globals it touches being passed
explicitly.  The build-time choice `#ifdef RR / FCFS / PBS / MLFQ` is a value
of `Policy`.  Values of C type `int` are integers of `Int`: the development is
about runs in which no `int` overflows, except for the pid counter `nextpid`,
the one `int` that only ever grows: `allocproc32` is `allocproc` with the
counter held in 32 bits, and the pids assigned along a run are taken from it.
-/

namespace Xv6

/-- Modelled from the spec: `enum procstate` is declared in proc.h, which is not
among the sources; the six states are those proc.c names and the spec lists. -/
inductive ProcState where
  | UNUSED
  | EMBRYO
  | SLEEPING
  | RUNNABLE
  | RUNNING
  | ZOMBIE
  deriving DecidableEq

/-- Modelled from the spec: `struct proc` is declared in proc.h, which is not
among the sources.  The fields are the ones proc.c reads and writes, typed as
in the spec's data model: integers and tick counts are `Int`, `parent` is a
slot index or none, `kstack`, `pgdir` and `chan` are opaque addresses with `0`
for null, `name` is the string held in the `name` array, and `q0 .. q4` are
the five counters `q[0] .. q[4]`. -/
structure Proc where
  state : ProcState
  pid : Int
  parent : Option Nat
  kstack : Nat
  pgdir : Nat
  name : String
  chan : Nat
  killed : Int
  ctime : Int
  etime : Int
  rtime : Int
  tmp_wtime : Int
  n_run : Int
  priority : Int
  timeslice : Int
  position_priority : Int
  io : Int
  tickflag : Int
  cur_q : Int
  q0 : Int
  q1 : Int
  q2 : Int
  q3 : Int
  q4 : Int
  deriving DecidableEq

/-- Modelled from the spec: `struct procQueue` is declared in proc.h, which is
not among the sources; the two fields are the ones `pinit` initialises. -/
structure ProcQueue where
  timeslice_cutoff : Int
  largest_position : Int
  deriving DecidableEq

/-- The build-time scheduling policy (`#ifdef RR`, `FCFS`, `PBS`, `MLFQ`). -/
inductive Policy where
  | RR
  | FCFS
  | PBS
  | MLFQ
  deriving DecidableEq

/-- The globals of proc.c together with the tick counter `ticks`:
`ptable.proc`, `nextpid`, `ticks` and `proc_queue`. -/
structure Kernel where
  proc : List Proc
  nextpid : Int
  ticks : Int
  proc_queue : List ProcQueue
  deriving DecidableEq

/-- A slot of the zero-initialised table: every field is 0, the state is
`UNUSED` (the first enumerator). -/
def Proc.zero : Proc :=
  { state := .UNUSED, pid := 0, parent := none, kstack := 0, pgdir := 0, name := "",
    chan := 0, killed := 0, ctime := 0, etime := 0, rtime := 0, tmp_wtime := 0,
    n_run := 0, priority := 0, timeslice := 0, position_priority := 0, io := 0,
    tickflag := 0, cur_q := 0, q0 := 0, q1 := 0, q2 := 0, q3 := 0, q4 := 0 }

/-! ## The selection scans of `scheduler` (FCFS, PBS, MLFQ) -/

/-- One iteration of the selection loops of `scheduler`: slot `p` at index `i`
is skipped unless RUNNABLE; it becomes the candidate when there is none yet or
when `better p candidate` holds.  The candidate pointer is the pair of the
slot's index and the slot it points to. -/
def scanStep (better : Proc → Proc → Bool) (p : Proc) (i : Nat)
    (best : Option (Nat × Proc)) : Option (Nat × Proc) :=
  if p.state ≠ .RUNNABLE then best
  else
    match best with
    | none => some (i, p)
    | some (b, e) => if better p e then some (i, p) else some (b, e)

/-- The loop `for(p = ptable.proc; p < &ptable.proc[NPROC]; p++)` of the
selection scans, from index `i` on. -/
def scanLoop (better : Proc → Proc → Bool) :
    List Proc → Nat → Option (Nat × Proc) → Option (Nat × Proc)
  | [], _, best => best
  | p :: ps, i, best => scanLoop better ps (i + 1) (scanStep better p i best)

/-- The whole scan, starting with a null candidate; the result is the index of
the selected slot. -/
def selectBy (better : Proc → Proc → Bool) (t : List Proc) : Option Nat :=
  (scanLoop better t 0 none).map Prod.fst

/-- FCFS replaces the candidate when `p->ctime < earliestProcess->ctime`. -/
def fcfsBetter (p e : Proc) : Bool :=
  decide (p.ctime < e.ctime)

/-- PBS replaces the candidate when
`p->priority < highestPriorityProcess->priority`. -/
def pbsBetter (p h : Proc) : Bool :=
  decide (p.priority < h.priority)

/-- MLFQ replaces the candidate when `p->cur_q` is smaller, or when the queues
are equal and `p->position_priority` is smaller. -/
def mlfqBetter (p h : Proc) : Bool :=
  if p.cur_q < h.cur_q then true
  else if p.cur_q = h.cur_q then
    (if p.position_priority < h.position_priority then true else false)
  else false

/-- The selection of the FCFS scheduler loop. -/
def fcfsSelect (t : List Proc) : Option Nat := selectBy fcfsBetter t

/-- The selection of the PBS scheduler loop. -/
def pbsSelect (t : List Proc) : Option Nat := selectBy pbsBetter t

/-- The selection of the MLFQ scheduler loop. -/
def mlfqSelect (t : List Proc) : Option Nat := selectBy mlfqBetter t

/-- Slot `i` of table `t` exists and is RUNNABLE. -/
def RunnableAt (t : List Proc) (i : Nat) : Prop :=
  ∃ p, t[i]? = some p ∧ p.state = .RUNNABLE

/-- A table for the FCFS scenario: C (created at tick 12) in slot 0, a
sleeping process in slot 1, A (tick 10) in slot 2 and B (tick 11) in slot 3. -/
def fcfsTable : List Proc :=
  [{ Proc.zero with state := .RUNNABLE, pid := 5, ctime := 12 },
   { Proc.zero with state := .SLEEPING, pid := 1, ctime := 1 },
   { Proc.zero with state := .RUNNABLE, pid := 3, ctime := 10 },
   { Proc.zero with state := .RUNNABLE, pid := 4, ctime := 11 }]

/-! ## The RR scheduler loop -/

/-- The statement `p->q[p->cur_q]++`.  An index outside `0 .. 4` would write
outside the array; the model leaves the slot as it is there. -/
def Proc.qIncr (p : Proc) : Proc :=
  if p.cur_q = 0 then { p with q0 := p.q0 + 1 }
  else if p.cur_q = 1 then { p with q1 := p.q1 + 1 }
  else if p.cur_q = 2 then { p with q2 := p.q2 + 1 }
  else if p.cur_q = 3 then { p with q3 := p.q3 + 1 }
  else if p.cur_q = 4 then { p with q4 := p.q4 + 1 }
  else p

/-- The updates the scheduler makes to the chosen slot before `swtch`:
`state = RUNNING`, `n_run++`, `tmp_wtime = 0`, `io = 0`, and when
`tickflag != ticks` also `tickflag = ticks`, `rtime++` (and `q[cur_q]++` in
the MLFQ build). -/
def dispatch (pol : Policy) (ticks : Int) (p : Proc) : Proc :=
  let p1 := { p with state := .RUNNING, n_run := p.n_run + 1, tmp_wtime := 0, io := 0 }
  if p1.tickflag ≠ ticks then
    let p2 := { p1 with tickflag := ticks, rtime := p1.rtime + 1 }
    if pol = .MLFQ then p2.qIncr else p2
  else p1

/-- The inner loop of the RR scheduler over the slot indices still to visit.
A slot that is not RUNNABLE is skipped.  A RUNNABLE slot is dispatched and
`swtch` runs it: `run i` is the state in which control comes back to the
scheduler, and the loop goes on with the next index.  The result lists every
dispatch as the pair of the chosen index and the state in which it was chosen,
and gives the state at the end of the pass. -/
def rrLoop (run : Nat → Kernel → Kernel) : List Nat → Kernel → List (Nat × Kernel) × Kernel
  | [], k => ([], k)
  | i :: rest, k =>
    match k.proc[i]? with
    | none => rrLoop run rest k
    | some p =>
      if p.state ≠ .RUNNABLE then rrLoop run rest k
      else
        let r := rrLoop run rest (run i { k with proc := k.proc.set i (dispatch .RR k.ticks p) })
        ((i, k) :: r.1, r.2)

/-- One pass of the RR scheduler: `acquire`, the loop over the whole table,
`release`. -/
def rrPass (run : Nat → Kernel → Kernel) (k : Kernel) : List (Nat × Kernel) × Kernel :=
  rrLoop run (List.range k.proc.length) k

/-- The outer `for(;;)` of the RR scheduler, cut after `n` passes; `idle` is
what the rest of the system does to the state while the lock is released
between two passes.  The result has one list of dispatches per pass. -/
def rrScheduler (run : Nat → Kernel → Kernel) (idle : Kernel → Kernel) :
    Nat → Kernel → List (List (Nat × Kernel))
  | 0, _ => []
  | n + 1, k =>
    let r := rrPass run k
    r.1 :: rrScheduler run idle n (idle r.2)

/-- Slot `i` is the RUNNABLE slot with the lowest index of table `t`. -/
def FirstRunnable (t : List Proc) (i : Nat) : Prop :=
  RunnableAt t i ∧ ∀ j, j < i → ¬ RunnableAt t j

/-- The dispatches of one pass, read from scan position `lo`: each dispatched
slot is RUNNABLE when chosen, lies at or after the scan position, no slot
between the scan position and it is RUNNABLE at that moment, and the scan
goes on right after it. -/
def RRPassOk : Nat → List (Nat × Kernel) → Prop
  | _, [] => True
  | lo, (i, k) :: rest =>
      lo ≤ i ∧ RunnableAt k.proc i ∧ (∀ j, lo ≤ j → j < i → ¬ RunnableAt k.proc j) ∧
        RRPassOk (i + 1) rest

/-- A process that gives the CPU back through `yield`: its state is RUNNABLE
when control returns to the scheduler. -/
def yieldBack (i : Nat) (k : Kernel) : Kernel :=
  match k.proc[i]? with
  | none => k
  | some p => { k with proc := k.proc.set i { p with state := .RUNNABLE } }

/-- A table of two RUNNABLE processes, pids 1 and 2. -/
def twoRunnable : Kernel :=
  { proc := [{ Proc.zero with state := .RUNNABLE, pid := 1 },
             { Proc.zero with state := .RUNNABLE, pid := 2 }],
    nextpid := 3, ticks := 0, proc_queue := [] }

/-! ## `set_priority` -/

/-- The clamp at the head of `set_priority`. -/
def clampPriority (new_priority : Int) : Int :=
  if new_priority < 0 then 0
  else if new_priority > 100 then 100
  else new_priority

/-- The loop of `set_priority`: the first slot that is not UNUSED and carries
`pid` gets the new priority and ends the loop (`break`); `oldPriority` is the
value to return. -/
def setPriorityLoop (new_priority pid : Int) : List Proc → Int → Int × List Proc
  | [], oldPriority => (oldPriority, [])
  | p :: ps, oldPriority =>
    if p.state ≠ .UNUSED then
      if p.pid = pid then (p.priority, { p with priority := new_priority } :: ps)
      else
        let r := setPriorityLoop new_priority pid ps oldPriority
        (r.1, p :: r.2)
    else
      let r := setPriorityLoop new_priority pid ps oldPriority
      (r.1, p :: r.2)

/-- The system call `set_priority(new_priority, pid)`: the value returned and
the table it leaves. -/
def set_priority (new_priority pid : Int) (t : List Proc) : Int × List Proc :=
  setPriorityLoop (clampPriority new_priority) pid t (-1)

/-- Slot `i` is the first slot of `t`, in table order, that is not UNUSED and
has pid `pid`. -/
def FirstLive (t : List Proc) (pid : Int) (i : Nat) (p : Proc) : Prop :=
  t[i]? = some p ∧ p.state ≠ .UNUSED ∧ p.pid = pid ∧
    ∀ j q, j < i → t[j]? = some q → ¬ (q.state ≠ .UNUSED ∧ q.pid = pid)

/-! ## `allocproc` -/

/-- The first loop of `allocproc`: the first UNUSED slot from index `i` on,
as its index and the slot. -/
def findUnused : List Proc → Nat → Option (Nat × Proc)
  | [], _ => none
  | p :: ps, i => if p.state = .UNUSED then some (i, p) else findUnused ps (i + 1)

/-- The initialisation `allocproc` gives a claimed slot once its kernel stack
`kstack` is allocated (the trap frame and context it lays out inside that
stack are not part of the model). -/
def initSlot (pol : Policy) (kstack : Nat) (ticks : Int) (p : Proc) : Proc :=
  { p with
    kstack := kstack
    ctime := ticks
    etime := ticks
    rtime := 0
    tmp_wtime := 0
    priority := 60
    n_run := 0
    timeslice := 0
    position_priority := 0
    io := 0
    tickflag := -1
    cur_q := if pol = .MLFQ then 0 else -1
    q0 := 0
    q1 := 0
    q2 := 0
    q3 := 0
    q4 := 0 }

/-- The function `allocproc`; `kalloc` is what the call `kalloc()` returns
(`0` when no page is left).  The result is the pointer returned (`none` for 0)
and the state left behind. -/
def allocproc (pol : Policy) (kalloc : Nat) (k : Kernel) : Option Nat × Kernel :=
  match findUnused k.proc 0 with
  | none => (none, k)
  | some (i, p) =>
    let p1 := { p with state := .EMBRYO, pid := k.nextpid }
    let nextpid := k.nextpid + 1
    if kalloc = 0 then
      (none, { k with proc := k.proc.set i { p1 with kstack := 0, state := .UNUSED },
                      nextpid := nextpid })
    else
      (some i, { k with proc := k.proc.set i (initSlot pol kalloc k.ticks p1),
                        nextpid := nextpid })

/-- Slot `i` is the UNUSED slot with the lowest index of table `t`. -/
def FirstUnused (t : List Proc) (i : Nat) (p : Proc) : Prop :=
  t[i]? = some p ∧ p.state = .UNUSED ∧
    ∀ j q, j < i → t[j]? = some q → q.state ≠ .UNUSED

/-- What happens between two looks at the pid counter: a call of `allocproc`
whose `kalloc()` returns `kalloc`, or any other activity of the kernel, which
leaves some table, tick count and queue data but never writes `nextpid`
(`allocproc` is its only writer). -/
inductive Event where
  | alloc (kalloc : Nat)
  | other (proc : List Proc) (ticks : Int) (proc_queue : List ProcQueue)

/-- The value left in an `int` of 32 bits by an arithmetic result `n`: two's
complement wrap-around, as on the x86 target of xv6. -/
def toInt32 (n : Int) : Int :=
  (n + 2147483648) % 4294967296 - 2147483648

/-- The function `allocproc` with the global `int nextpid` held in 32 bits:
`p->pid = nextpid++` leaves `nextpid + 1` wrapped, so that the counter goes
from 2147483647 to -2147483648.  Nothing else differs from `allocproc`. -/
def allocproc32 (pol : Policy) (kalloc : Nat) (k : Kernel) : Option Nat × Kernel :=
  match findUnused k.proc 0 with
  | none => (none, k)
  | some _ =>
    let r := allocproc pol kalloc k
    (r.1, { r.2 with nextpid := toInt32 (k.nextpid + 1) })

/-- The pids assigned along a run of events, in the order of assignment: a
call of `allocproc` that finds an UNUSED slot writes a pid into it, also when
the kernel stack cannot be allocated afterwards; the pid logged is the one
found in that slot after the call.  The counter is the 32-bit one. -/
def assignedPids (pol : Policy) : List Event → Kernel → List Int
  | [], _ => []
  | .alloc kalloc :: es, k =>
    let k1 := (allocproc32 pol kalloc k).2
    match findUnused k.proc 0 with
    | none => assignedPids pol es k1
    | some (i, _) =>
      match k1.proc[i]? with
      | none => assignedPids pol es k1
      | some p => p.pid :: assignedPids pol es k1
  | .other proc ticks pq :: es, k =>
    assignedPids pol es { k with proc := proc, ticks := ticks, proc_queue := pq }

/-! ## `wait` and `waitx` -/

/-- How a pass of the `for(;;)` of `wait` ends: the call returns `value` and
leaves table `t`, or it calls `sleep(curproc, &ptable.lock)` and looks again
when woken. -/
inductive WaitResult where
  | ret (value : Int) (t : List Proc)
  | sleep (t : List Proc)
  deriving DecidableEq

/-- The scan of `wait` and `waitx` from index `i` on: slots whose parent is
not `curproc` are skipped, the others set `havekids`, and the first of them
that is ZOMBIE ends the scan.  The result is that slot, if any, and
`havekids`. -/
def waitScan (curproc : Nat) : List Proc → Nat → Bool → Option (Nat × Proc) × Bool
  | [], _, havekids => (none, havekids)
  | p :: ps, i, havekids =>
    if p.parent ≠ some curproc then waitScan curproc ps (i + 1) havekids
    else if p.state = .ZOMBIE then (some (i, p), true)
    else waitScan curproc ps (i + 1) true

/-- The reset of a reaped slot: `kstack = 0`, `pid = 0`, `parent = 0`,
`name[0] = 0`, `killed = 0`, `state = UNUSED`.  (`kfree` and `freevm` give the
stack and the address space back to the allocator; `pgdir` keeps its value.) -/
def reap (p : Proc) : Proc :=
  { p with kstack := 0, pid := 0, parent := none, name := "", killed := 0, state := .UNUSED }

/-- The test `!havekids || curproc->killed` after a scan that found no ZOMBIE
child. -/
def waitGivesUp (curproc : Nat) (t : List Proc) (havekids : Bool) : Bool :=
  match t[curproc]? with
  | none => !havekids
  | some c => !havekids || decide (c.killed ≠ 0)

/-- One pass of `wait()` called by the process in slot `curproc`. -/
def wait (curproc : Nat) (t : List Proc) : WaitResult :=
  match waitScan curproc t 0 false with
  | (some (i, p), _) => .ret p.pid (t.set i (reap p))
  | (none, havekids) => if waitGivesUp curproc t havekids then .ret (-1) t else .sleep t

/-- The result of a pass of `waitx`: as for `wait`, with the values stored
through the pointers `wtime` and `rtime` (nothing is stored unless a child is
reaped). -/
structure WaitxResult where
  res : WaitResult
  wtime : Option Int
  rtime : Option Int
  deriving DecidableEq

/-- One pass of `waitx(&wtime, &rtime)` called by the process in slot
`curproc`. -/
def waitx (curproc : Nat) (t : List Proc) : WaitxResult :=
  match waitScan curproc t 0 false with
  | (some (i, p), _) =>
    { res := .ret p.pid (t.set i (reap p)),
      wtime := some (p.etime - p.ctime - p.rtime + 1),
      rtime := some p.rtime }
  | (none, havekids) =>
    { res := if waitGivesUp curproc t havekids then .ret (-1) t else .sleep t,
      wtime := none, rtime := none }

/-- Slot `i` is the first slot of `t`, in table order, that is a ZOMBIE child
of the process in slot `curproc`. -/
def FirstZombieChild (t : List Proc) (curproc i : Nat) (p : Proc) : Prop :=
  t[i]? = some p ∧ p.parent = some curproc ∧ p.state = .ZOMBIE ∧
    ∀ j q, j < i → t[j]? = some q → ¬ (q.parent = some curproc ∧ q.state = .ZOMBIE)

/-! ## `kill` -/

/-- The function `kill(pid)`: the first slot in table order whose pid is `pid`
(the state of the slot is not looked at) gets `killed = 1`, is made RUNNABLE if
it is SLEEPING, and the call returns 0; when the loop ends without a match the
call returns -1. -/
def kill (pid : Int) : List Proc → Int × List Proc
  | [] => (-1, [])
  | p :: ps =>
    if p.pid = pid then
      let p1 := { p with killed := 1 }
      (0, (if p1.state = .SLEEPING then { p1 with state := .RUNNABLE } else p1) :: ps)
    else
      let r := kill pid ps
      (r.1, p :: r.2)

/-! ## `wakeup1` and `wakeup` -/

/-- The body of the loop of `wakeup1`:
`if(p->state == SLEEPING && p->chan == chan) p->state = RUNNABLE`. -/
def wake (chan : Nat) (p : Proc) : Proc :=
  if p.state = .SLEEPING ∧ p.chan = chan then { p with state := .RUNNABLE } else p

/-- The function `wakeup1(chan)`, called with the table lock held. -/
def wakeup1 (chan : Nat) : List Proc → List Proc
  | [] => []
  | p :: ps => wake chan p :: wakeup1 chan ps

/-- The function `wakeup(chan)`: `wakeup1` between `acquire` and `release`. -/
def wakeup (chan : Nat) (t : List Proc) : List Proc :=
  wakeup1 chan t

/-- The invariant of the spec, for every slot: `chan` is non-null if and only
if the state is SLEEPING. -/
def ChanInv (t : List Proc) : Prop :=
  ∀ p ∈ t, p.chan ≠ 0 ↔ p.state = .SLEEPING

/-! ## `exit` -/

/-- A pointer to a slot used as a sleep channel: the null pointer is channel
0, a pointer to slot `i` is the address `addr i` of that slot. -/
def chanOf (addr : Nat → Nat) : Option Nat → Nat
  | none => 0
  | some i => addr i

/-- The loop of `exit` that passes abandoned children to init, over the slot
indices still to visit: a slot whose parent is `curproc` gets `initproc` as
parent, and if it is a ZOMBIE `wakeup1(initproc)` is called. -/
def exitLoop (addr : Nat → Nat) (curproc initproc : Nat) : List Nat → List Proc → List Proc
  | [], t => t
  | i :: rest, t =>
    match t[i]? with
    | none => exitLoop addr curproc initproc rest t
    | some p =>
      if p.parent = some curproc then
        let t1 := t.set i { p with parent := some initproc }
        exitLoop addr curproc initproc rest
          (if p.state = .ZOMBIE then wakeup1 (addr initproc) t1 else t1)
      else exitLoop addr curproc initproc rest t

/-- The function `exit()` called by the process in slot `curproc`, at tick
`ticks`: an error for the panic "init exiting", otherwise the table with which
the process enters the scheduler for the last time (closing the files and
releasing the directory are not part of the model). -/
def exit (addr : Nat → Nat) (initproc curproc : Nat) (ticks : Int) (t : List Proc) :
    Except String (List Proc) :=
  if curproc = initproc then .error "init exiting"
  else
    match t[curproc]? with
    | none => .ok t
    | some c =>
      let t1 := t.set curproc { c with etime := ticks }
      let t2 := wakeup1 (chanOf addr c.parent) t1
      let t3 := exitLoop addr curproc initproc (List.range t2.length) t2
      match t3[curproc]? with
      | none => .ok t3
      | some c3 => .ok (t3.set curproc { c3 with state := .ZOMBIE })

/-! ## `fork` -/

/-- The function `fork()` called by the process in slot `curproc`; `kalloc` and
`copyuvm` are what the calls `kalloc()` and `copyuvm(..)` return (0 on
failure).  The result is the value returned and the state left behind (the
size, the trap frame, the open files and the directory of the child are not
part of the model). -/
def fork (pol : Policy) (kalloc copyuvm : Nat) (curproc : Nat) (k : Kernel) : Int × Kernel :=
  match allocproc pol kalloc k with
  | (none, k1) => (-1, k1)
  | (some i, k1) =>
    match k1.proc[i]? with
    | none => (-1, k1)
    | some np =>
      if copyuvm = 0 then
        (-1, { k1 with
                proc := k1.proc.set i { np with pgdir := 0, kstack := 0, state := .UNUSED } })
      else
        let name := match k1.proc[curproc]? with
          | none => np.name
          | some c => c.name
        (np.pid, { k1 with
                    proc := k1.proc.set i
                      { np with pgdir := copyuvm, parent := some curproc, name := name,
                                state := .RUNNABLE } })

/-- The invariant "every UNUSED slot has pid 0". -/
def UnusedPidZero (t : List Proc) : Prop :=
  ∀ p ∈ t, p.state = .UNUSED → p.pid = 0

/-! ## The program `setPriority` -/

/-- The lines `main` of setPriority.c can print, one constructor for each
`printf` call (with the values of its `%d` arguments). -/
inductive Msg where
  | insufficientArguments
  | pidShouldBePositive
  | notUpdated
  | updated (pid : Int)
  | oldPriority (old_priority : Int)
  | doesNotExist (pid : Int)
  | shouldBeInRange
  deriving DecidableEq

/-- Modelled from the spec: `atoi` is defined in ulib.c, which is not among the
sources; the spec calls the arguments of the utility numeric, and this is the
value of the decimal digits at the head of the string, read from the left. -/
def atoiDigits : List Char → Int → Int
  | [], n => n
  | c :: cs, n =>
    if 48 ≤ c.toNat ∧ c.toNat ≤ 57 then atoiDigits cs (n * 10 + (c.toNat - 48 : Nat))
    else n

/-- The function `main(argc, argv)` of setPriority.c, run on table `t`; `atoi`
is the library function it calls, `argv` the argument strings (`argc` is their
number).  The result is the list of lines printed and the table left by the
system call, if it is made. -/
def main (atoi : List Char → Int) (argv : List (List Char)) (t : List Proc) :
    List Msg × List Proc :=
  if argv.length < 3 then ([.insufficientArguments], t)
  else
    let arg1 := argv.getD 1 []
    let arg2 := argv.getD 2 []
    let new_priority := atoi arg1
    let pid := atoi arg2
    if arg2.head? = some '-' then ([.pidShouldBePositive, .notUpdated], t)
    else if new_priority ≥ 0 ∧ new_priority ≤ 100 ∧ arg1.head? ≠ some '-' then
      let r := set_priority new_priority pid t
      if r.1 ≠ -1 then ([.updated pid, .oldPriority r.1], r.2)
      else ([.doesNotExist pid, .notUpdated], r.2)
    else ([.shouldBeInRange, .notUpdated], t)

/-! ## `updateruntime`, the tick handler -/

/-- The constant `AGE_CUTOFF`. -/
def AGE_CUTOFF : Int := 200

/-- The first part of the loop body of `updateruntime`: a RUNNING slot gets
`rtime++`, `tmp_wtime = 0`, `tickflag = ticks` (and `q[cur_q]++` in the MLFQ
build); any other slot that is not UNUSED gets `tmp_wtime++`. -/
def account (pol : Policy) (ticks : Int) (p : Proc) : Proc :=
  if p.state = .RUNNING then
    let p1 := { p with rtime := p.rtime + 1, tmp_wtime := 0, tickflag := ticks }
    if pol = .MLFQ then p1.qIncr else p1
  else if p.state ≠ .UNUSED then { p with tmp_wtime := p.tmp_wtime + 1 }
  else p

/-- The value `proc_queue[i].largest_position` (0 for an index outside the
array, which the code never uses with `cur_q` in 0 .. 4). -/
def largestPosition (pq : List ProcQueue) (i : Int) : Int :=
  if i < 0 then 0
  else
    match pq[i.toNat]? with
    | none => 0
    | some q => q.largest_position

/-- The assignment `proc_queue[i].largest_position = v` (nothing for an index
outside the array). -/
def setLargestPosition (pq : List ProcQueue) (i : Int) (v : Int) : List ProcQueue :=
  if i < 0 then pq
  else
    match pq[i.toNat]? with
    | none => pq
    | some q => pq.set i.toNat { q with largest_position := v }

/-- The second part of the loop body of `updateruntime`, compiled in the MLFQ
build only: a slot that is not UNUSED, with `tmp_wtime > AGE_CUTOFF` and
`cur_q != 0`, moves one queue up, to the end of that queue, and its
`tmp_wtime` is reset. -/
def age (p : Proc) (pq : List ProcQueue) : Proc × List ProcQueue :=
  if p.state ≠ .UNUSED then
    if p.tmp_wtime > AGE_CUTOFF then
      if p.cur_q ≠ 0 then
        let p1 := { p with cur_q := p.cur_q - 1 }
        let p2 := { p1 with position_priority := 1 + largestPosition pq p1.cur_q }
        ({ p2 with tmp_wtime := 0 }, setLargestPosition pq p2.cur_q p2.position_priority)
      else (p, pq)
    else (p, pq)
  else (p, pq)

/-- The loop body of `updateruntime` for one slot. -/
def tickSlot (pol : Policy) (ticks : Int) (p : Proc) (pq : List ProcQueue) :
    Proc × List ProcQueue :=
  if pol = .MLFQ then age (account pol ticks p) pq else (account pol ticks p, pq)

/-- The loop of `updateruntime` over the table, carrying `proc_queue`. -/
def updateLoop (pol : Policy) (ticks : Int) :
    List Proc → List ProcQueue → List Proc × List ProcQueue
  | [], pq => ([], pq)
  | p :: ps, pq =>
    let r := tickSlot pol ticks p pq
    let rest := updateLoop pol ticks ps r.2
    (r.1 :: rest.1, rest.2)

/-- The function `updateruntime()`, called once per clock tick. -/
def updateruntime (pol : Policy) (k : Kernel) : Kernel :=
  let r := updateLoop pol k.ticks k.proc k.proc_queue
  { k with proc := r.1, proc_queue := r.2 }

/-- The tmp_wtime of a slot after the accounting part of the tick. -/
def waitedAfterAccounting (p : Proc) : Int :=
  if p.state = .RUNNING then 0
  else if p.state ≠ .UNUSED then p.tmp_wtime + 1
  else p.tmp_wtime

/-! ## Tables used as concrete instances -/

/-- A state at tick 42 whose table has a RUNNABLE process in slot 0 and two
free slots; the next pid is 2. -/
def allocKernel : Kernel :=
  { proc := [{ Proc.zero with state := .RUNNABLE, pid := 1 }, Proc.zero, Proc.zero],
    nextpid := 2, ticks := 42, proc_queue := [] }

/-- A ZOMBIE child (pid 3) of the process in slot 0: created at tick 100, it
ran 3 ticks and exited at tick 108. -/
def zombieChild : Proc :=
  { Proc.zero with
    state := .ZOMBIE
    pid := 3
    parent := some 0
    name := "b"
    kstack := 4096
    pgdir := 8192
    killed := 1
    ctime := 100
    etime := 108
    rtime := 3 }

/-- The RUNNABLE process (pid 7, priority 60) of `prioTable`. -/
def prioProc : Proc :=
  { Proc.zero with state := .RUNNABLE, pid := 7, priority := 60 }

/-- A table with a free slot 0, a sleeping process (pid 1) in slot 1 and a
RUNNABLE process (pid 7, priority 60) in slot 2. -/
def prioTable : List Proc :=
  [Proc.zero,
   { Proc.zero with state := .SLEEPING, pid := 1, priority := 60, chan := 8 },
   prioProc]

/-- A table in which the process of slot 0 (pid 1) has a RUNNABLE child in
slot 1 and ZOMBIE children in slots 2 and 3; the child in slot 2 was created
at tick 100, ran 3 ticks and exited at tick 108. -/
def waitTable : List Proc :=
  [{ Proc.zero with state := .RUNNING, pid := 1, name := "sh" },
   { Proc.zero with state := .RUNNABLE, pid := 2, parent := some 0, name := "a" },
   zombieChild,
   { Proc.zero with state := .ZOMBIE, pid := 4, parent := some 0, name := "c" }]

/-- What `kill` does to the slot it finds: `killed = 1`, and RUNNABLE instead
of SLEEPING. -/
def killMark (p : Proc) : Proc :=
  { p with killed := 1, state := if p.state = .SLEEPING then .RUNNABLE else p.state }

/-- A table in which the caller, in slot 0, has its killed flag set and has a
ZOMBIE child in slot 1. -/
def killedParentTable : List Proc :=
  [{ Proc.zero with state := .RUNNING, pid := 1, killed := 1 }, zombieChild]

/-- A table in which the caller, in slot 0, has its killed flag set and has
one child, which is RUNNABLE. -/
def killedWaiterTable : List Proc :=
  [{ Proc.zero with state := .RUNNING, pid := 1, killed := 1 },
   { Proc.zero with state := .RUNNABLE, pid := 2, parent := some 0 }]

/-- The address of slot `i`, for the tables used as instances. -/
def slotAddr (i : Nat) : Nat := 4096 * (i + 1)

/-- A table for `exit`: init (pid 1) in slot 0 sleeps in `wait`, the process of
slot 1 (pid 2, a child of init) is running and has a RUNNABLE child in slot 2
and a ZOMBIE child in slot 3. -/
def exitTable : List Proc :=
  [{ Proc.zero with state := .SLEEPING, pid := 1, chan := slotAddr 0 },
   { Proc.zero with state := .RUNNING, pid := 2, parent := some 0 },
   { Proc.zero with state := .RUNNABLE, pid := 3, parent := some 1 },
   { Proc.zero with state := .ZOMBIE, pid := 4, parent := some 1 }]

/-- The function `atoi` on an argument string: the digits read from 0. -/
def atoiModel (s : List Char) : Int := atoiDigits s 0

/-- The command line `setPriority 150 7`. -/
def argvAbove : List (List Char) :=
  [['s', 'e', 't', 'P', 'r', 'i', 'o', 'r', 'i', 't', 'y'], ['1', '5', '0'], ['7']]

/-- The command line `setPriority 20 7`. -/
def argvInRange : List (List Char) :=
  [['s', 'e', 't', 'P', 'r', 'i', 'o', 'r', 'i', 't', 'y'], ['2', '0'], ['7']]

/-- A state at tick 5 with one RUNNING process whose tickflag is already 5 and
whose rtime is 2. -/
def tickKernel : Kernel :=
  { proc := [{ Proc.zero with state := .RUNNING, pid := 1, rtime := 2, tickflag := 5 }],
    nextpid := 2, ticks := 5, proc_queue := [] }

/-- The RUNNABLE process of `agingKernel`: in queue 4, waiting for 200 ticks. -/
def agingProc : Proc :=
  { Proc.zero with state := .RUNNABLE, pid := 2, cur_q := 4, tmp_wtime := 200,
                   position_priority := 3 }

/-- An MLFQ state at tick 500: `agingProc` in slot 0, a free slot 1, and the
five queues, of which queue 3 has handed out position 7. -/
def agingKernel : Kernel :=
  { proc := [agingProc, Proc.zero],
    nextpid := 3, ticks := 500,
    proc_queue := [{ timeslice_cutoff := 1, largest_position := 0 },
                   { timeslice_cutoff := 2, largest_position := 0 },
                   { timeslice_cutoff := 4, largest_position := 0 },
                   { timeslice_cutoff := 8, largest_position := 7 },
                   { timeslice_cutoff := 16, largest_position := 0 }] }

/-! ## Dispatch by the scheduler, `sleep`, `pinit` -/

/-- The sum `q[0] + q[1] + q[2] + q[3] + q[4]` of a slot. -/
def Proc.qSum (p : Proc) : Int :=
  p.q0 + p.q1 + p.q2 + p.q3 + p.q4

/-- The updates of `dispatch` applied to slot `i` of the table, at the tick of
the state; nothing else is written. -/
def dispatchSlot (pol : Policy) (i : Nat) (k : Kernel) : Kernel :=
  match k.proc[i]? with
  | none => k
  | some p => { k with proc := k.proc.set i (dispatch pol k.ticks p) }

/-- One round of the `for(;;)` of the FCFS, PBS and MLFQ schedulers up to
`swtch`: the selection scan `select`, then, if a slot was chosen, its dispatch.
The result is the slot chosen and the state in which the process starts to
run. -/
def schedulerRound (pol : Policy) (select : List Proc → Option Nat) (k : Kernel) :
    Option Nat × Kernel :=
  match select k.proc with
  | none => (none, k)
  | some i => (some i, dispatchSlot pol i k)

/-- A round of the FCFS scheduler. -/
def fcfsRound (k : Kernel) : Option Nat × Kernel := schedulerRound .FCFS fcfsSelect k

/-- A round of the PBS scheduler. -/
def pbsRound (k : Kernel) : Option Nat × Kernel := schedulerRound .PBS pbsSelect k

/-- A round of the MLFQ scheduler. -/
def mlfqRound (k : Kernel) : Option Nat × Kernel := schedulerRound .MLFQ mlfqSelect k

/-- The invariant of the spec under MLFQ: every slot that is not UNUSED has
its cur_q in 0 .. 4 and its queue counters add up to its rtime. -/
def MlfqInv (t : List Proc) : Prop :=
  ∀ p ∈ t, p.state ≠ .UNUSED → 0 ≤ p.cur_q ∧ p.cur_q ≤ 4 ∧ p.qSum = p.rtime

/-- The MLFQ block of `sleep`: a process with `io == 0` gets `io = 1` and the
position after the largest one handed out in its queue. -/
def sleepRequeue (p : Proc) (pq : List ProcQueue) : Proc × List ProcQueue :=
  if p.io = 0 then
    let p1 := { p with io := 1 }
    let p2 := { p1 with position_priority := 1 + largestPosition pq p1.cur_q }
    (p2, setLargestPosition pq p2.cur_q p2.position_priority)
  else (p, pq)

/-- The function `sleep(chan, lk)` up to its call of `sched()`; `curproc` is
what `myproc()` returns and `lk` the address of the lock (0 for null).  The
result is an error for the two panics, otherwise the state in which the
process enters the scheduler (the hand-over of the locks is not part of the
model). -/
def sleep (pol : Policy) (chan lk : Nat) (curproc : Option Nat) (k : Kernel) :
    Except String Kernel :=
  match curproc with
  | none => .error "sleep"
  | some i =>
    if lk = 0 then .error "sleep without lk"
    else
      match k.proc[i]? with
      | none => .ok k
      | some p =>
        let r := if pol = .MLFQ then sleepRequeue p k.proc_queue else (p, k.proc_queue)
        .ok { k with
              proc := k.proc.set i { r.1 with chan := chan, state := .SLEEPING }
              proc_queue := r.2 }

/-- The function `pinit`: in the MLFQ build it sets, for `i` from 0 to 4,
`proc_queue[i].timeslice_cutoff = 1 << i` and
`proc_queue[i].largest_position = 0`. -/
def pinit (pol : Policy) (k : Kernel) : Kernel :=
  if pol = .MLFQ then
    { k with
      proc_queue := (List.range 5).map fun i =>
        { timeslice_cutoff := 2 ^ i, largest_position := 0 } }
  else k

/-- The globals before `pinit`, for a table of `nproc` slots: static storage
is zero, `nextpid` is 1. -/
def bootKernel (nproc : Nat) : Kernel :=
  { proc := List.replicate nproc Proc.zero,
    nextpid := 1, ticks := 0,
    proc_queue := List.replicate 5 { timeslice_cutoff := 0, largest_position := 0 } }

/-- Modelled from the spec: the time-slice rule of the trap layer (trap.c is
not among the sources).  The running process, in slot `i`, is demoted: its
cur_q becomes `min(cur_q + 1, 4)`, it gets a new tail position_priority, the
next largest_position of that queue, and it yields, so that it is RUNNABLE. -/
def demote (i : Nat) (k : Kernel) : Kernel :=
  match k.proc[i]? with
  | none => k
  | some p =>
    let c := min (p.cur_q + 1) 4
    let pos := 1 + largestPosition k.proc_queue c
    { k with
      proc := k.proc.set i { p with cur_q := c, position_priority := pos, state := .RUNNABLE }
      proc_queue := setLargestPosition k.proc_queue c pos }

/-- The states the MLFQ build reaches from `pinit` by calls of `allocproc`, of
`sleep`, rounds of the scheduler and runs of the tick handler (at any tick
count), by the demotion of a running process by the trap layer, and by the
other code of the kernel, which writes fields of a slot but never its cur_q
or position_priority (as `userinit`, `fork`, `yield`, `wakeup`, `kill`, `exit`,
`wait` and `set_priority` do). -/
inductive MlfqReachable : Kernel → Prop where
  | boot (nproc : Nat) : MlfqReachable (pinit .MLFQ (bootKernel nproc))
  | alloc (kalloc : Nat) (k : Kernel) :
      MlfqReachable k → MlfqReachable (allocproc .MLFQ kalloc k).2
  | sleep (chan lk : Nat) (i : Nat) (k k1 : Kernel) :
      MlfqReachable k → sleep .MLFQ chan lk (some i) k = .ok k1 → MlfqReachable k1
  | round (k : Kernel) : MlfqReachable k → MlfqReachable (mlfqRound k).2
  | tick (ticks : Int) (k : Kernel) :
      MlfqReachable k → MlfqReachable (updateruntime .MLFQ { k with ticks := ticks })
  | other (i : Nat) (p q : Proc) (k : Kernel) :
      MlfqReachable k → k.proc[i]? = some p →
      q.cur_q = p.cur_q → q.position_priority = p.position_priority →
      MlfqReachable { k with proc := k.proc.set i q }
  | demote (i : Nat) (k : Kernel) :
      MlfqReachable k → (k.proc[i]?.map fun p => p.state) = some .RUNNING →
      MlfqReachable (demote i k)

/-- There are five queues and no largest_position is negative. -/
def QueuesOk (pq : List ProcQueue) : Prop :=
  pq.length = 5 ∧ ∀ c : Int, 0 ≤ largestPosition pq c

/-- The slot has its cur_q in 0 .. 4 and a position_priority that is at most
the largest_position of its queue. -/
def SlotOk (pq : List ProcQueue) (p : Proc) : Prop :=
  0 ≤ p.cur_q ∧ p.cur_q ≤ 4 ∧ p.position_priority ≤ largestPosition pq p.cur_q

/-- What the reachable MLFQ states have in common: `QueuesOk` of the queue
data and `SlotOk` of every slot of the table. -/
def QueueInv (k : Kernel) : Prop :=
  QueuesOk k.proc_queue ∧ ∀ p ∈ k.proc, SlotOk k.proc_queue p

/-- The state field of slot `i` set to `st`. -/
def setState (i : Nat) (st : ProcState) (k : Kernel) : Kernel :=
  match k.proc[i]? with
  | none => k
  | some p => { k with proc := k.proc.set i { p with state := st } }

/-- A run of the process of slot `i` that ends with its demotion. -/
def runAndDemote (i : Nat) (k : Kernel) : Kernel :=
  demote i (setState i .RUNNING k)

/-- A reachable MLFQ state with two processes in queue 2: boot with three
slots, two calls of `allocproc`, then the process of slot 0 runs and is demoted
twice (to queue 1 and to queue 2, at position 1 each time), the process of
slot 1 likewise (at position 2 each time), and the process of slot 0 runs
again. -/
def demotedKernel : Kernel :=
  setState 0 .RUNNING
    (runAndDemote 1
      (runAndDemote 1
        (runAndDemote 0
          (runAndDemote 0
            (allocproc .MLFQ 4096
              (allocproc .MLFQ 4096 (pinit .MLFQ (bootKernel 3))).2).2))))

/-- A state in which the process of slot 0 is RUNNABLE with tickflag 41, at
tick 42, in the MLFQ build after `pinit`. -/
def dispatchKernel : Kernel :=
  pinit .MLFQ
    { proc := [{ Proc.zero with state := .RUNNABLE, pid := 1, tickflag := 41, rtime := 3,
                                 q0 := 3, io := 1, tmp_wtime := 9 },
               Proc.zero],
      nextpid := 2, ticks := 42, proc_queue := [] }

/-- A short run from boot: an allocation that fails on the kernel stack, one
that succeeds, the table emptied by the rest of the kernel, and one more
allocation. -/
def pidRun : List Event :=
  [.alloc 0, .alloc 4096, .other [Proc.zero, Proc.zero] 5 [], .alloc 4096]

/-- The loop invariant of a selection scan over the prefix `pre` already
visited, for a replacement test that compares the key `key`. -/
def ScanInv {α : Type} [LinearOrder α] (key : Proc → α) (pre : List Proc) : Option (Nat × Proc) → Prop
  | none => ∀ p ∈ pre, p.state ≠ .RUNNABLE
  | some (b, e) =>
      pre[b]? = some e ∧ e.state = .RUNNABLE ∧
        ∀ j q, pre[j]? = some q → q.state = .RUNNABLE →
          key e ≤ key q ∧ (j < b → key e < key q)

/-! ## Lemmas on the selection scans -/

section Scan

variable {α : Type} [LinearOrder α]

theorem scanInv_step (key : Proc → α) (better : Proc → Proc → Bool)
    (hb : ∀ p e, better p e = true ↔ key p < key e)
    (pre : List Proc) (p : Proc) (best : Option (Nat × Proc))
    (h : ScanInv key pre best) :
    ScanInv key (pre ++ [p]) (scanStep better p pre.length best) := by
  unfold scanStep
  by_cases hp : p.state = .RUNNABLE
  · simp only [hp, ne_eq, not_true_eq_false, if_false]
    cases best with
    | none =>
      simp only [ScanInv] at h ⊢
      refine ⟨by simp, hp, ?_⟩
      intro j q hj hq
      rcases Nat.lt_or_ge j pre.length with hlt | hge
      · rw [List.getElem?_append_left hlt] at hj
        exact absurd hq (h q (List.getElem?_mem hj))
      · rw [List.getElem?_append_right hge] at hj
        have hj0 : j - pre.length = 0 := by
          by_contra hne
          have : ([p] : List Proc)[j - pre.length]? = none := by
            apply List.getElem?_eq_none
            simp; omega
          rw [this] at hj; cases hj
        rw [hj0] at hj
        simp at hj
        subst hj
        exact ⟨le_refl _, fun hlt => absurd hlt (by omega)⟩
    | some be =>
      obtain ⟨b, e⟩ := be
      simp only [ScanInv] at h
      obtain ⟨hbe, he, hall⟩ := h
      have hblt : b < pre.length := by
        by_contra hge
        rw [List.getElem?_eq_none (by omega)] at hbe
        cases hbe
      by_cases hbt : better p e = true
      · simp only [hbt, if_true, ScanInv]
        have hlt := (hb p e).1 hbt
        refine ⟨by simp, hp, ?_⟩
        intro j q hj hq
        rcases Nat.lt_or_ge j pre.length with hjl | hge
        · rw [List.getElem?_append_left hjl] at hj
          have := (hall j q hj hq).1
          exact ⟨le_of_lt (lt_of_lt_of_le hlt this), fun _ => lt_of_lt_of_le hlt this⟩
        · rw [List.getElem?_append_right hge] at hj
          have hj0 : j - pre.length = 0 := by
            by_contra hne
            have : ([p] : List Proc)[j - pre.length]? = none := by
              apply List.getElem?_eq_none
              simp; omega
            rw [this] at hj; cases hj
          rw [hj0] at hj
          simp at hj
          subst hj
          exact ⟨le_refl _, fun hlt => absurd hlt (by omega)⟩
      · have hnlt : ¬ key p < key e := fun hlt => hbt ((hb p e).2 hlt)
        simp only [hbt, ScanInv]
        refine ⟨by rw [List.getElem?_append_left hblt]; exact hbe, he, ?_⟩
        intro j q hj hq
        rcases Nat.lt_or_ge j pre.length with hjl | hge
        · rw [List.getElem?_append_left hjl] at hj
          exact hall j q hj hq
        · rw [List.getElem?_append_right hge] at hj
          have hj0 : j - pre.length = 0 := by
            by_contra hne
            have : ([p] : List Proc)[j - pre.length]? = none := by
              apply List.getElem?_eq_none
              simp; omega
            rw [this] at hj; cases hj
          rw [hj0] at hj
          simp at hj
          subst hj
          exact ⟨not_lt.1 hnlt, fun hlt => absurd hlt (by omega)⟩
  · simp only [ne_eq, hp, not_false_eq_true, if_true]
    cases best with
    | none =>
      simp only [ScanInv] at h ⊢
      intro q hq
      rcases List.mem_append.1 hq with hq | hq
      · exact h q hq
      · rw [List.mem_singleton] at hq; subst hq; exact hp
    | some be =>
      obtain ⟨b, e⟩ := be
      simp only [ScanInv] at h ⊢
      obtain ⟨hbe, he, hall⟩ := h
      have hblt : b < pre.length := by
        by_contra hge
        rw [List.getElem?_eq_none (by omega)] at hbe
        cases hbe
      refine ⟨by rw [List.getElem?_append_left hblt]; exact hbe, he, ?_⟩
      intro j q hj hq
      rcases Nat.lt_or_ge j pre.length with hjl | hge
      · rw [List.getElem?_append_left hjl] at hj
        exact hall j q hj hq
      · rw [List.getElem?_append_right hge] at hj
        have hj0 : j - pre.length = 0 := by
          by_contra hne
          have : ([p] : List Proc)[j - pre.length]? = none := by
            apply List.getElem?_eq_none
            simp; omega
          rw [this] at hj; cases hj
        rw [hj0] at hj
        simp at hj
        subst hj
        exact absurd hq hp

theorem scanInv_loop (key : Proc → α) (better : Proc → Proc → Bool)
    (hb : ∀ p e, better p e = true ↔ key p < key e)
    (ps pre : List Proc) (best : Option (Nat × Proc))
    (h : ScanInv key pre best) :
    ScanInv key (pre ++ ps) (scanLoop better ps pre.length best) := by
  induction ps generalizing pre best with
  | nil => simpa [scanLoop] using h
  | cons p ps ih =>
    have hstep := scanInv_step key better hb pre p best h
    have := ih (pre ++ [p]) _ hstep
    simpa [scanLoop, List.append_assoc] using this

theorem scanInv_result (key : Proc → α) (better : Proc → Proc → Bool)
    (hb : ∀ p e, better p e = true ↔ key p < key e) (t : List Proc) :
    ScanInv key t (scanLoop better t 0 none) := by
  have h0 : ScanInv key [] none := by simp [ScanInv]
  simpa using scanInv_loop key better hb t [] none h0

theorem selectBy_eq_none (key : Proc → α) (better : Proc → Proc → Bool)
    (hb : ∀ p e, better p e = true ↔ key p < key e) (t : List Proc) :
    selectBy better t = none ↔ ∀ p ∈ t, p.state ≠ .RUNNABLE := by
  have h := scanInv_result key better hb t
  unfold selectBy
  cases hr : scanLoop better t 0 none with
  | none =>
    rw [hr] at h
    simpa [ScanInv] using h
  | some be =>
    obtain ⟨b, e⟩ := be
    rw [hr] at h
    simp only [ScanInv] at h
    simp only [Option.map_some', false_iff, reduceCtorEq]
    intro hall
    exact hall e (List.getElem?_mem h.1) h.2.1

theorem selectBy_eq_some (key : Proc → α) (better : Proc → Proc → Bool)
    (hb : ∀ p e, better p e = true ↔ key p < key e) (t : List Proc) (i : Nat) :
    selectBy better t = some i ↔
      ∃ p, t[i]? = some p ∧ p.state = .RUNNABLE ∧
        ∀ j q, t[j]? = some q → q.state = .RUNNABLE →
          key p ≤ key q ∧ (j < i → key p < key q) := by
  have h := scanInv_result key better hb t
  unfold selectBy
  cases hr : scanLoop better t 0 none with
  | none =>
    rw [hr] at h
    simp only [ScanInv] at h
    simp only [Option.map_none', false_iff, reduceCtorEq]
    rintro ⟨p, hp, hrun, -⟩
    exact h p (List.getElem?_mem hp) hrun
  | some be =>
    obtain ⟨b, e⟩ := be
    rw [hr] at h
    simp only [ScanInv] at h
    obtain ⟨hbe, he, hall⟩ := h
    simp only [Option.map_some', Option.some.injEq]
    constructor
    · intro hbi
      subst hbi
      exact ⟨e, hbe, he, hall⟩
    · rintro ⟨p, hp, hrun, hmin⟩
      rcases Nat.lt_trichotomy b i with hlt | heq | hgt
      · have h1 := (hmin b e hbe he).2 hlt
        have h2 := (hall i p hp hrun).1
        exact absurd h1 (not_lt.2 h2)
      · exact heq
      · have h1 := (hall i p hp hrun).2 hgt
        have h2 := (hmin b e hbe he).1
        exact absurd h1 (not_lt.2 h2)

theorem fcfsBetter_iff (p e : Proc) : fcfsBetter p e = true ↔ p.ctime < e.ctime := by
  simp [fcfsBetter]

theorem pbsBetter_iff (p e : Proc) : pbsBetter p e = true ↔ p.priority < e.priority := by
  simp [pbsBetter]

theorem mlfqBetter_iff (p e : Proc) :
    mlfqBetter p e = true ↔
      toLex (p.cur_q, p.position_priority) < toLex (e.cur_q, e.position_priority) := by
  rw [Prod.Lex.lt_iff]
  unfold mlfqBetter
  by_cases h1 : p.cur_q < e.cur_q
  · simp [h1]
  · by_cases h2 : p.cur_q = e.cur_q
    · simp [h2]
    · simp [h1, h2]

end Scan

theorem getElem?_set_zombie (t : List Proc) (a : Nat) (pa : Proc) (j : Nat) (q : Proc)
    (hj : (t.set a { pa with state := .ZOMBIE })[j]? = some q)
    (hq : q.state = .RUNNABLE) : j ≠ a ∧ t[j]? = some q := by
  rw [List.getElem?_set] at hj
  by_cases haj : a = j
  · rw [if_pos haj] at hj
    split at hj
    · simp only [Option.some.injEq] at hj
      subst hj
      simp at hq
    · cases hj
  · rw [if_neg haj] at hj
    exact ⟨fun h => haj h.symm, hj⟩

/-! ## The first slot with a property -/

theorem exists_first_slot (P : Proc → Prop) (t : List Proc) (h : ∃ q ∈ t, P q) :
    ∃ (i : Nat) (p : Proc), t[i]? = some p ∧ P p ∧
      ∀ (j : Nat) (q : Proc), j < i → t[j]? = some q → ¬ P q := by
  induction t with
  | nil =>
    obtain ⟨q, hq, -⟩ := h
    cases hq
  | cons a ps ih =>
    by_cases ha : P a
    · exact ⟨0, a, by simp, ha, fun j q hj => absurd hj (Nat.not_lt_zero j)⟩
    · obtain ⟨q, hq, hPq⟩ := h
      have hqps : q ∈ ps := by
        rcases List.mem_cons.1 hq with hq | hq
        · subst hq; exact absurd hPq ha
        · exact hq
      obtain ⟨i, p, h1, h2, h3⟩ := ih ⟨q, hqps, hPq⟩
      refine ⟨i + 1, p, by simpa using h1, h2, fun j r hj hr => ?_⟩
      cases j with
      | zero =>
        simp only [List.getElem?_cons_zero, Option.some.injEq] at hr
        subst hr; exact ha
      | succ j =>
        simp only [List.getElem?_cons_succ] at hr
        exact h3 j r (Nat.lt_of_succ_lt_succ hj) hr

/-! ## Lemmas on the RR loop -/

theorem rrLoop_ok (run : Nat → Kernel → Kernel) (n lo : Nat) (k : Kernel) :
    RRPassOk lo (rrLoop run (List.range' lo n) k).1 ∧
      ∀ i k0 rest, (rrLoop run (List.range' lo n) k).1 = (i, k0) :: rest → k0 = k := by
  induction n generalizing lo k with
  | zero => simp [List.range', rrLoop, RRPassOk]
  | succ n ih =>
    have hskip : ¬ RunnableAt k.proc lo →
        RRPassOk lo (rrLoop run (List.range' (lo + 1) n) k).1 := by
      intro hno
      obtain ⟨h1, h2⟩ := ih (lo + 1) k
      cases hrec : (rrLoop run (List.range' (lo + 1) n) k).1 with
      | nil => simp [RRPassOk]
      | cons r rest =>
        obtain ⟨i, k0⟩ := r
        rw [hrec] at h1
        have hk0 := h2 i k0 rest hrec
        subst hk0
        simp only [RRPassOk] at h1 ⊢
        obtain ⟨hle, hrun, hnone, hrest⟩ := h1
        refine ⟨by omega, hrun, fun j hj hji => ?_, hrest⟩
        rcases Nat.eq_or_lt_of_le hj with heq | hlt
        · subst heq; exact hno
        · exact hnone j hlt hji
    simp only [List.range', rrLoop]
    cases hp : k.proc[lo]? with
    | none =>
      simp only []
      refine ⟨hskip ?_, (ih (lo + 1) k).2⟩
      rintro ⟨q, hq, -⟩
      rw [hp] at hq; cases hq
    | some p =>
      simp only []
      by_cases hrun : p.state = .RUNNABLE
      · simp only [hrun, ne_eq, not_true_eq_false, if_false]
        refine ⟨?_, ?_⟩
        · simp only [RRPassOk]
          exact ⟨le_refl _, ⟨p, hp, hrun⟩, fun j h1 h2 => absurd h2 (by omega), (ih _ _).1⟩
        · intro i k0 rest h
          simp only [List.cons.injEq, Prod.mk.injEq] at h
          exact h.1.2.symm
      · simp only [ne_eq, hrun, not_false_eq_true, if_true]
        refine ⟨hskip ?_, (ih (lo + 1) k).2⟩
        rintro ⟨q, hq, hqr⟩
        rw [hp] at hq
        simp only [Option.some.injEq] at hq
        subst hq
        exact hrun hqr

theorem rrPass_ok (run : Nat → Kernel → Kernel) (k : Kernel) :
    RRPassOk 0 (rrPass run k).1 := by
  unfold rrPass
  rw [List.range_eq_range']
  exact (rrLoop_ok run k.proc.length 0 k).1

theorem rrScheduler_ok (run : Nat → Kernel → Kernel) (idle : Kernel → Kernel)
    (n : Nat) (k : Kernel) : ∀ pass ∈ rrScheduler run idle n k, RRPassOk 0 pass := by
  induction n generalizing k with
  | zero => simp [rrScheduler]
  | succ n ih =>
    intro pass hpass
    simp only [rrScheduler, List.mem_cons] at hpass
    rcases hpass with h | h
    · subst h; exact rrPass_ok run k
    · exact ih _ pass h

/-! ## Lemmas on `set_priority` -/

theorem setPriorityLoop_of_firstLive (np pid : Int) (t : List Proc) (old : Int)
    (i : Nat) (p : Proc) (h : FirstLive t pid i p) :
    setPriorityLoop np pid t old = (p.priority, t.set i { p with priority := np }) := by
  induction t generalizing i with
  | nil =>
    obtain ⟨h1, -⟩ := h
    simp at h1
  | cons a ps ih =>
    obtain ⟨h1, h2, h3, h4⟩ := h
    cases i with
    | zero =>
      simp only [List.getElem?_cons_zero, Option.some.injEq] at h1
      subst h1
      simp [setPriorityLoop, h2, h3]
    | succ i =>
      simp only [List.getElem?_cons_succ] at h1
      have ha : ¬ (a.state ≠ .UNUSED ∧ a.pid = pid) :=
        h4 0 a (Nat.succ_pos i) (by simp)
      have hrec := ih i ⟨h1, h2, h3, fun j q hj hq =>
        h4 (j + 1) q (Nat.succ_lt_succ hj) (by simpa using hq)⟩
      simp only [setPriorityLoop, List.set_cons_succ]
      by_cases hs : a.state = .UNUSED
      · simp [hs, hrec]
      · have hpid : a.pid ≠ pid := fun hp => ha ⟨hs, hp⟩
        simp [hs, hpid, hrec]

theorem setPriorityLoop_of_none (np pid : Int) (t : List Proc) (old : Int)
    (h : ∀ p ∈ t, ¬ (p.state ≠ .UNUSED ∧ p.pid = pid)) :
    setPriorityLoop np pid t old = (old, t) := by
  induction t with
  | nil => simp [setPriorityLoop]
  | cons a ps ih =>
    have ha := h a (List.mem_cons_self a ps)
    have hrec := ih (fun q hq => h q (List.mem_cons_of_mem a hq))
    simp only [setPriorityLoop]
    by_cases hs : a.state = .UNUSED
    · simp [hs, hrec]
    · have hpid : a.pid ≠ pid := fun hp => ha ⟨hs, hp⟩
      simp [hs, hpid, hrec]

theorem firstLive_set_priority (t : List Proc) (pid : Int) (i : Nat) (p : Proc) (v : Int)
    (h : FirstLive t pid i p) :
    FirstLive (t.set i { p with priority := v }) pid i { p with priority := v } := by
  obtain ⟨h1, h2, h3, h4⟩ := h
  have hi : i < t.length := by
    by_contra hge
    rw [List.getElem?_eq_none (by omega)] at h1
    cases h1
  refine ⟨by simp [List.getElem?_set, hi], h2, h3, fun j q hj hq => ?_⟩
  rw [List.getElem?_set, if_neg (by omega)] at hq
  exact h4 j q hj hq

theorem clampPriority_eq (x : Int) : clampPriority x = max 0 (min x 100) := by
  unfold clampPriority
  split
  · omega
  · split <;> omega

/-! ## Lemmas on `allocproc` -/

theorem findUnused_of_firstUnused (t : List Proc) (n i : Nat) (p : Proc)
    (h : FirstUnused t i p) : findUnused t n = some (n + i, p) := by
  induction t generalizing n i with
  | nil =>
    obtain ⟨h1, -⟩ := h
    simp at h1
  | cons a ps ih =>
    obtain ⟨h1, h2, h3⟩ := h
    cases i with
    | zero =>
      simp only [List.getElem?_cons_zero, Option.some.injEq] at h1
      subst h1
      simp [findUnused, h2]
    | succ i =>
      simp only [List.getElem?_cons_succ] at h1
      have ha : a.state ≠ .UNUSED := h3 0 a (Nat.succ_pos i) (by simp)
      have hrec := ih (n + 1) i ⟨h1, h2, fun j q hj hq =>
        h3 (j + 1) q (Nat.succ_lt_succ hj) (by simpa using hq)⟩
      simp only [findUnused, ha, if_false, hrec]
      congr 2
      omega

theorem findUnused_of_none (t : List Proc) (n : Nat)
    (h : ∀ p ∈ t, p.state ≠ .UNUSED) : findUnused t n = none := by
  induction t generalizing n with
  | nil => simp [findUnused]
  | cons a ps ih =>
    have ha := h a (List.mem_cons_self a ps)
    simp only [findUnused, ha, if_false]
    exact ih (n + 1) (fun q hq => h q (List.mem_cons_of_mem a hq))

theorem firstUnused_of_findUnused (t : List Proc) (n j : Nat) (p : Proc)
    (h : findUnused t n = some (j, p)) : ∃ i, j = n + i ∧ FirstUnused t i p := by
  induction t generalizing n with
  | nil => simp [findUnused] at h
  | cons a ps ih =>
    simp only [findUnused] at h
    by_cases ha : a.state = .UNUSED
    · simp only [ha, if_true, Option.some.injEq, Prod.mk.injEq] at h
      obtain ⟨h1, h2⟩ := h
      subst h1 h2
      exact ⟨0, rfl, by simp, ha, fun j q hj => absurd hj (Nat.not_lt_zero j)⟩
    · simp only [ha, if_false] at h
      obtain ⟨i, hi, h1, h2, h3⟩ := ih (n + 1) h
      refine ⟨i + 1, by omega, by simpa using h1, h2, fun j q hj hq => ?_⟩
      cases j with
      | zero =>
        simp only [List.getElem?_cons_zero, Option.some.injEq] at hq
        subst hq; exact ha
      | succ j =>
        simp only [List.getElem?_cons_succ] at hq
        exact h3 j q (Nat.lt_of_succ_lt_succ hj) hq

theorem findUnused_eq_none (t : List Proc) (n : Nat) (h : findUnused t n = none) :
    ∀ p ∈ t, p.state ≠ .UNUSED := by
  induction t generalizing n with
  | nil => simp
  | cons a ps ih =>
    simp only [findUnused] at h
    by_cases ha : a.state = .UNUSED
    · simp [ha] at h
    · simp only [ha, if_false] at h
      intro q hq
      rcases List.mem_cons.1 hq with hq | hq
      · subst hq; exact ha
      · exact ih (n + 1) h q hq

theorem allocproc_of_found (pol : Policy) (kalloc : Nat) (k : Kernel) (i : Nat) (p : Proc)
    (h : findUnused k.proc 0 = some (i, p)) :
    (allocproc pol kalloc k).2.nextpid = k.nextpid + 1 ∧
      ∃ p1, (allocproc pol kalloc k).2.proc[i]? = some p1 ∧ p1.pid = k.nextpid := by
  obtain ⟨i0, hi0, h1, -⟩ := firstUnused_of_findUnused _ _ _ _ h
  have hi : i < k.proc.length := by
    by_contra hge
    rw [show i0 = i by omega, List.getElem?_eq_none (by omega)] at h1
    cases h1
  unfold allocproc
  rw [h]
  by_cases hk : kalloc = 0
  · simp [hk, List.getElem?_set, hi]
  · simp [hk, List.getElem?_set, hi, initSlot]

theorem allocproc_of_not_found (pol : Policy) (kalloc : Nat) (k : Kernel)
    (h : findUnused k.proc 0 = none) : allocproc pol kalloc k = (none, k) := by
  unfold allocproc
  rw [h]

theorem allocproc32_of_found (pol : Policy) (kalloc : Nat) (k : Kernel) (i : Nat) (p : Proc)
    (h : findUnused k.proc 0 = some (i, p)) :
    (allocproc32 pol kalloc k).2.nextpid = toInt32 (k.nextpid + 1) ∧
      ∃ p1, (allocproc32 pol kalloc k).2.proc[i]? = some p1 ∧ p1.pid = k.nextpid := by
  obtain ⟨-, p1, h1, h2⟩ := allocproc_of_found pol kalloc k i p h
  unfold allocproc32
  rw [h]
  exact ⟨rfl, p1, h1, h2⟩

theorem allocproc32_of_not_found (pol : Policy) (kalloc : Nat) (k : Kernel)
    (h : findUnused k.proc 0 = none) : allocproc32 pol kalloc k = (none, k) := by
  unfold allocproc32
  rw [h]

theorem toInt32_of_range (n : Int) (h0 : -2147483648 ≤ n) (h1 : n ≤ 2147483647) :
    toInt32 n = n := by
  unfold toInt32
  omega

theorem toInt32_succ_add (a : Int) (j : Nat) :
    toInt32 (toInt32 (a + 1) + j) = toInt32 (a + (j + 1 : Nat)) := by
  unfold toInt32
  push_cast
  omega

theorem assignedPids_alloc_found (pol : Policy) (kalloc : Nat) (es : List Event) (k : Kernel)
    (i : Nat) (p : Proc) (h : findUnused k.proc 0 = some (i, p)) :
    assignedPids pol (.alloc kalloc :: es) k =
      k.nextpid :: assignedPids pol es (allocproc32 pol kalloc k).2 := by
  obtain ⟨-, p1, hp1, hpid⟩ := allocproc32_of_found pol kalloc k i p h
  simp only [assignedPids]
  rw [h]
  simp only [hp1, hpid]

theorem assignedPids_alloc_not_found (pol : Policy) (kalloc : Nat) (es : List Event)
    (k : Kernel) (h : findUnused k.proc 0 = none) :
    assignedPids pol (.alloc kalloc :: es) k = assignedPids pol es k := by
  simp only [assignedPids]
  rw [h, allocproc32_of_not_found pol kalloc k h]

/-- While the counter stays below 2^31 the pids assigned increase. -/
theorem assignedPids_increasing (pol : Policy) (es : List Event) (k : Kernel)
    (h0 : -2147483648 ≤ k.nextpid)
    (h1 : k.nextpid + (assignedPids pol es k).length ≤ 2147483648) :
    (assignedPids pol es k).Pairwise (· < ·) ∧
      ∀ pid ∈ assignedPids pol es k, k.nextpid ≤ pid := by
  induction es generalizing k with
  | nil => simp [assignedPids]
  | cons e es ih =>
    cases e with
    | other proc ticks pq =>
      simp only [assignedPids] at h1 ⊢
      exact ih _ h0 h1
    | alloc kalloc =>
      cases hfu : findUnused k.proc 0 with
      | none =>
        rw [assignedPids_alloc_not_found pol kalloc es k hfu] at h1 ⊢
        exact ih k h0 h1
      | some ip =>
        obtain ⟨i, p⟩ := ip
        rw [assignedPids_alloc_found pol kalloc es k i p hfu] at h1 ⊢
        obtain ⟨hnext, -⟩ := allocproc32_of_found pol kalloc k i p hfu
        rw [List.length_cons] at h1
        push_cast at h1
        have hlow : -2147483648 ≤ (allocproc32 pol kalloc k).2.nextpid := by
          rw [hnext]; unfold toInt32; omega
        have hle : (allocproc32 pol kalloc k).2.nextpid ≤ k.nextpid + 1 := by
          rw [hnext]; unfold toInt32; omega
        obtain ⟨ih1, ih2⟩ := ih (allocproc32 pol kalloc k).2 hlow (by omega)
        have hgt : ∀ q ∈ assignedPids pol es (allocproc32 pol kalloc k).2, k.nextpid < q := by
          intro q hq
          have hpos := List.length_pos_of_mem hq
          have hq2 := ih2 q hq
          rw [hnext, toInt32_of_range _ (by omega) (by omega)] at hq2
          omega
        refine ⟨List.pairwise_cons.2 ⟨hgt, ih1⟩, fun q hq => ?_⟩
        rcases List.mem_cons.1 hq with hq | hq
        · omega
        · exact le_of_lt (hgt q hq)

/-- A run of `n` allocations that all fail on the kernel stack, in a table of
one UNUSED slot: the pids assigned are the values of the 32-bit counter. -/
theorem assignedPids_failed (pol : Policy) (n : Nat) (k : Kernel) (p : Proc)
    (hk : k.proc = [p]) (hs : p.state = .UNUSED)
    (h0 : -2147483648 ≤ k.nextpid) (h1 : k.nextpid ≤ 2147483647) :
    assignedPids pol (List.replicate n (.alloc 0)) k =
      (List.range n).map fun j : Nat => toInt32 (k.nextpid + (j : Int)) := by
  induction n generalizing k p with
  | zero => rfl
  | succ n ih =>
    have hfu : findUnused k.proc 0 = some (0, p) := by
      rw [hk]; simp [findUnused, hs]
    obtain ⟨hnext, -⟩ := allocproc32_of_found pol 0 k 0 p hfu
    have hproc : (allocproc32 pol 0 k).2.proc =
        [{ p with pid := k.nextpid, kstack := 0, state := .UNUSED }] := by
      unfold allocproc32
      rw [hfu]
      unfold allocproc
      rw [hfu, hk]
      rfl
    rw [List.replicate_succ, assignedPids_alloc_found pol 0 _ k 0 p hfu,
      ih (allocproc32 pol 0 k).2 _ hproc rfl (by rw [hnext]; unfold toInt32; omega)
        (by rw [hnext]; unfold toInt32; omega),
      List.range_succ_eq_map, List.map_cons, List.map_map, hnext]
    congr 1
    · rw [Nat.cast_zero, add_zero, toInt32_of_range _ h0 h1]
    · apply List.map_congr_left
      intro j _
      exact toInt32_succ_add k.nextpid j

/-! ## Lemmas on `wait` and `waitx` -/

theorem waitScan_of_firstZombieChild (curproc : Nat) (t : List Proc) (n : Nat) (hk : Bool)
    (i : Nat) (p : Proc) (h : FirstZombieChild t curproc i p) :
    waitScan curproc t n hk = (some (n + i, p), true) := by
  induction t generalizing n i hk with
  | nil =>
    obtain ⟨h1, -⟩ := h
    simp at h1
  | cons a ps ih =>
    obtain ⟨h1, h2, h3, h4⟩ := h
    cases i with
    | zero =>
      simp only [List.getElem?_cons_zero, Option.some.injEq] at h1
      subst h1
      simp [waitScan, h2, h3]
    | succ i =>
      simp only [List.getElem?_cons_succ] at h1
      have ha : ¬ (a.parent = some curproc ∧ a.state = .ZOMBIE) :=
        h4 0 a (Nat.succ_pos i) (by simp)
      have hrec := fun hk => ih (n + 1) hk i ⟨h1, h2, h3, fun j q hj hq =>
        h4 (j + 1) q (Nat.succ_lt_succ hj) (by simpa using hq)⟩
      have hn : n + 1 + i = n + (i + 1) := by omega
      simp only [waitScan]
      by_cases hpar : a.parent = some curproc
      · have hz : a.state ≠ .ZOMBIE := fun hz => ha ⟨hpar, hz⟩
        simp [hpar, hz, hrec, hn]
      · simp [hpar, hrec, hn]

/-! ## Lemmas on `wait` without a ZOMBIE child -/

theorem waitScan_of_no_zombie (curproc : Nat) (t : List Proc) (n : Nat) (hk : Bool)
    (h : ∀ p ∈ t, ¬ (p.parent = some curproc ∧ p.state = .ZOMBIE)) :
    waitScan curproc t n hk =
      (none, hk || t.any fun p => decide (p.parent = some curproc)) := by
  induction t generalizing n hk with
  | nil => simp [waitScan]
  | cons a ps ih =>
    have ha := h a (List.mem_cons_self a ps)
    have hrec := fun n hk => ih n hk (fun q hq => h q (List.mem_cons_of_mem a hq))
    simp only [waitScan]
    by_cases hpar : a.parent = some curproc
    · have hz : a.state ≠ .ZOMBIE := fun hz => ha ⟨hpar, hz⟩
      simp [hpar, hz, hrec]
    · simp [hpar, hrec]

theorem wait_of_no_children (curproc : Nat) (t : List Proc)
    (h : ∀ p ∈ t, p.parent ≠ some curproc) :
    wait curproc t = .ret (-1) t ∧
      waitx curproc t = { res := .ret (-1) t, wtime := none, rtime := none } := by
  have hany : (t.any fun p => decide (p.parent = some curproc)) = false := by
    rw [List.any_eq_false]
    intro q hq
    simpa using h q hq
  have hs := waitScan_of_no_zombie curproc t 0 false (fun q hq hc => h q hq hc.1)
  rw [hany] at hs
  have hg : waitGivesUp curproc t false = true := by
    unfold waitGivesUp
    cases t[curproc]? <;> simp
  constructor
  · unfold wait
    rw [hs]
    simp [hg]
  · unfold waitx
    rw [hs]
    simp [hg]

theorem wait_of_killed (curproc : Nat) (t : List Proc) (c : Proc)
    (hc : t[curproc]? = some c) (hk : c.killed ≠ 0)
    (h : ∀ p ∈ t, ¬ (p.parent = some curproc ∧ p.state = .ZOMBIE)) :
    wait curproc t = .ret (-1) t ∧
      waitx curproc t = { res := .ret (-1) t, wtime := none, rtime := none } := by
  have hs := waitScan_of_no_zombie curproc t 0 false h
  have hg : ∀ b, waitGivesUp curproc t b = true := by
    intro b
    unfold waitGivesUp
    rw [hc]
    simp [hk]
  constructor
  · unfold wait
    rw [hs]
    simp [hg]
  · unfold waitx
    rw [hs]
    simp [hg]

/-! ## Lemmas on `kill` and `wakeup1` -/

theorem kill_of_none (pid : Int) (t : List Proc) (h : ∀ p ∈ t, p.pid ≠ pid) :
    kill pid t = (-1, t) := by
  induction t with
  | nil => simp [kill]
  | cons a ps ih =>
    have ha := h a (List.mem_cons_self a ps)
    have hrec := ih (fun q hq => h q (List.mem_cons_of_mem a hq))
    simp [kill, ha, hrec]

theorem kill_mem (pid : Int) (t : List Proc) (q : Proc) (hq : q ∈ (kill pid t).2) :
    q ∈ t ∨ ∃ p ∈ t, q = killMark p := by
  induction t with
  | nil => simp [kill] at hq
  | cons a ps ih =>
    simp only [kill] at hq
    by_cases ha : a.pid = pid
    · subst ha
      simp only [if_true, List.mem_cons] at hq
      rcases hq with hq | hq
      · refine Or.inr ⟨a, List.mem_cons_self a ps, ?_⟩
        rw [hq]
        unfold killMark
        by_cases hs : a.state = .SLEEPING <;> simp [hs]
      · exact Or.inl (List.mem_cons_of_mem a hq)
    · simp only [ha, if_false, List.mem_cons] at hq
      rcases hq with hq | hq
      · exact Or.inl (by rw [hq]; exact List.mem_cons_self a ps)
      · rcases ih hq with h | ⟨p0, hp0, h⟩
        · exact Or.inl (List.mem_cons_of_mem a h)
        · exact Or.inr ⟨p0, List.mem_cons_of_mem a hp0, h⟩

theorem wakeup1_eq_map (chan : Nat) (t : List Proc) : wakeup1 chan t = t.map (wake chan) := by
  induction t with
  | nil => rfl
  | cons a ps ih => simp [wakeup1, ih]

theorem wakeup1_getElem? (chan : Nat) (t : List Proc) (j : Nat) :
    (wakeup1 chan t)[j]? = (t[j]?).map (wake chan) := by
  rw [wakeup1_eq_map, List.getElem?_map]

theorem wakeup1_length (chan : Nat) (t : List Proc) : (wakeup1 chan t).length = t.length := by
  rw [wakeup1_eq_map, List.length_map]

/-! ## Lemmas on `exit` -/

theorem wake_eq (chan : Nat) (p : Proc) : wake chan p = { p with state := (wake chan p).state } := by
  unfold wake
  split <;> rfl

theorem ite_range_shift (lo n j : Nat) (hj : j ≠ lo) (X : Prop) [Decidable X]
    (x y : Option Nat) :
    (if lo + 1 ≤ j ∧ j < lo + 1 + n ∧ X then x else y) =
      (if lo ≤ j ∧ j < lo + (n + 1) ∧ X then x else y) := by
  apply if_congr _ rfl rfl
  constructor <;> rintro ⟨h1, h2, h3⟩ <;> exact ⟨by omega, by omega, h3⟩

theorem exitLoop_length (addr : Nat → Nat) (curproc initproc : Nat) (idx : List Nat)
    (t : List Proc) : (exitLoop addr curproc initproc idx t).length = t.length := by
  induction idx generalizing t with
  | nil => rfl
  | cons i rest ih =>
    simp only [exitLoop]
    cases t[i]? with
    | none => exact ih t
    | some p =>
      simp only []
      split
      · rw [ih]
        split
        · rw [wakeup1_length, List.length_set]
        · rw [List.length_set]
      · exact ih t

theorem exitLoop_spec (addr : Nat → Nat) (curproc initproc : Nat) (n lo : Nat)
    (t : List Proc) (j : Nat) (p : Proc) (hj : t[j]? = some p) :
    ∃ s, (exitLoop addr curproc initproc (List.range' lo n) t)[j]? =
      some { p with
             state := s
             parent := if lo ≤ j ∧ j < lo + n ∧ p.parent = some curproc
                       then some initproc else p.parent } := by
  induction n generalizing lo t p with
  | zero =>
    refine ⟨p.state, ?_⟩
    have hc : ¬ (lo ≤ j ∧ j < lo + 0 ∧ p.parent = some curproc) := fun h => by
      have h1 := h.1
      have h2 := h.2.1
      omega
    simp only [List.range', exitLoop]
    rw [if_neg hc]
    exact hj
  | succ n ih =>
    simp only [List.range', exitLoop]
    cases ha : t[lo]? with
    | none =>
      simp only []
      have hjlo : j ≠ lo := by
        rintro rfl
        rw [ha] at hj; cases hj
      obtain ⟨s, hs⟩ := ih (lo + 1) t p hj
      exact ⟨s, by rw [hs, ite_range_shift lo n j hjlo]⟩
    | some a =>
      simp only []
      by_cases hpar : a.parent = some curproc
      · rw [if_pos hpar]
        by_cases hjlo : j = lo
        · subst hjlo
          rw [ha] at hj
          simp only [Option.some.injEq] at hj
          subst hj
          have hlt : j < t.length := by
            by_contra hge
            rw [List.getElem?_eq_none (by omega)] at ha
            cases ha
          have h2 : ∃ s2, (if a.state = .ZOMBIE
              then wakeup1 (addr initproc) (t.set j { a with parent := some initproc })
              else t.set j { a with parent := some initproc })[j]? =
              some { a with parent := some initproc, state := s2 } := by
            split
            · refine ⟨(wake (addr initproc) { a with parent := some initproc }).state, ?_⟩
              rw [wakeup1_getElem?, List.getElem?_set]
              simp only [if_true, hlt, Option.map_some']
              rw [wake_eq]
            · refine ⟨a.state, ?_⟩
              rw [List.getElem?_set]
              simp only [if_true, hlt]
          obtain ⟨s2, hs2⟩ := h2
          obtain ⟨s, hs⟩ := ih (j + 1) _ _ hs2
          refine ⟨s, ?_⟩
          rw [hs]
          have hc1 : ¬ (j + 1 ≤ j ∧ j < j + 1 + n ∧
              ({ a with parent := some initproc, state := s2 } : Proc).parent = some curproc) :=
            fun h => by
              have h1 := h.1
              omega
          have hc2 : j ≤ j ∧ j < j + (n + 1) ∧ a.parent = some curproc :=
            ⟨le_refl _, by omega, hpar⟩
          rw [if_neg hc1, if_pos hc2]
        · have h2 : ∃ s2, (if a.state = .ZOMBIE
              then wakeup1 (addr initproc) (t.set lo { a with parent := some initproc })
              else t.set lo { a with parent := some initproc })[j]? =
              some { p with state := s2 } := by
            split
            · refine ⟨(wake (addr initproc) p).state, ?_⟩
              rw [wakeup1_getElem?, List.getElem?_set, if_neg (fun h => hjlo h.symm), hj]
              simp only [Option.map_some']
              rw [wake_eq]
            · refine ⟨p.state, ?_⟩
              rw [List.getElem?_set, if_neg (fun h => hjlo h.symm), hj]
          obtain ⟨s2, hs2⟩ := h2
          obtain ⟨s, hs⟩ := ih (lo + 1) _ _ hs2
          refine ⟨s, ?_⟩
          rw [hs, ← ite_range_shift lo n j hjlo]
      · rw [if_neg hpar]
        obtain ⟨s, hs⟩ := ih (lo + 1) t p hj
        refine ⟨s, ?_⟩
        rw [hs]
        by_cases hjlo : j = lo
        · subst hjlo
          rw [ha] at hj
          simp only [Option.some.injEq] at hj
          subst hj
          have hc1 : ¬ (j + 1 ≤ j ∧ j < j + 1 + n ∧ a.parent = some curproc) :=
            fun h => hpar h.2.2
          have hc2 : ¬ (j ≤ j ∧ j < j + (n + 1) ∧ a.parent = some curproc) :=
            fun h => hpar h.2.2
          rw [if_neg hc1, if_neg hc2]
        · rw [ite_range_shift lo n j hjlo]

theorem exit_slots (addr : Nat → Nat) (initproc curproc : Nat) (ticks : Int)
    (t : List Proc) (c : Proc) (hc : t[curproc]? = some c) (hne : curproc ≠ initproc) :
    ∃ t1, exit addr initproc curproc ticks t = .ok t1 ∧ t1.length = t.length ∧
      ∀ (j : Nat) (p : Proc), t[j]? = some p →
        ∃ s, (j = curproc → s = .ZOMBIE) ∧
          t1[j]? = some { p with
                          state := s
                          etime := if j = curproc then ticks else p.etime
                          parent := if p.parent = some curproc
                                    then some initproc else p.parent } := by
  have hlt : curproc < t.length := by
    by_contra hge
    rw [List.getElem?_eq_none (by omega)] at hc
    cases hc
  -- the table when the loop over the children ends
  have hlen3 : (exitLoop addr curproc initproc
      (List.range (wakeup1 (chanOf addr c.parent)
        (t.set curproc { c with etime := ticks })).length)
      (wakeup1 (chanOf addr c.parent) (t.set curproc { c with etime := ticks }))).length =
      t.length := by
    rw [exitLoop_length, wakeup1_length, List.length_set]
  have h3 : ∀ (j : Nat) (p : Proc), t[j]? = some p →
      ∃ s, (exitLoop addr curproc initproc
        (List.range (wakeup1 (chanOf addr c.parent)
          (t.set curproc { c with etime := ticks })).length)
        (wakeup1 (chanOf addr c.parent) (t.set curproc { c with etime := ticks })))[j]? =
        some { p with
               state := s
               etime := if j = curproc then ticks else p.etime
               parent := if p.parent = some curproc then some initproc else p.parent } := by
    intro j p hj
    have hjlt : j < t.length := by
      by_contra hge
      rw [List.getElem?_eq_none (by omega)] at hj
      cases hj
    have h2 : (wakeup1 (chanOf addr c.parent) (t.set curproc { c with etime := ticks }))[j]? =
        some { p with
               etime := if j = curproc then ticks else p.etime
               state := (wake (chanOf addr c.parent)
                 { p with etime := if j = curproc then ticks else p.etime }).state } := by
      rw [wakeup1_getElem?, List.getElem?_set]
      by_cases hjc : curproc = j
      · subst hjc
        rw [hc] at hj
        simp only [Option.some.injEq] at hj
        subst hj
        simp only [if_true, hlt, Option.map_some']
        rw [wake_eq]
      · rw [if_neg hjc, hj, if_neg (fun h => hjc h.symm)]
        simp only [Option.map_some']
        rw [wake_eq]
    rw [List.range_eq_range']
    obtain ⟨s, hs⟩ := exitLoop_spec addr curproc initproc _ 0 _ j _ h2
    refine ⟨s, ?_⟩
    rw [hs]
    have hiff : (0 ≤ j ∧ j < 0 + (wakeup1 (chanOf addr c.parent)
        (t.set curproc { c with etime := ticks })).length ∧ p.parent = some curproc) ↔
        p.parent = some curproc := by
      rw [wakeup1_length, List.length_set]
      constructor
      · exact fun h => h.2.2
      · exact fun h => ⟨Nat.zero_le j, by omega, h⟩
    congr 2
    exact if_congr hiff rfl rfl
  obtain ⟨sc, hsc⟩ := h3 curproc c hc
  unfold exit
  rw [if_neg hne, hc]
  simp only []
  rw [hsc]
  simp only []
  refine ⟨_, rfl, by rw [List.length_set, hlen3], fun j p hj => ?_⟩
  by_cases hjc : j = curproc
  · subst hjc
    rw [hc] at hj
    simp only [Option.some.injEq] at hj
    subst hj
    refine ⟨.ZOMBIE, fun _ => rfl, ?_⟩
    rw [List.getElem?_set]
    simp only [if_true, hlen3, hlt]
  · obtain ⟨s, hs⟩ := h3 j p hj
    refine ⟨s, fun h => absurd h hjc, ?_⟩
    rw [List.getElem?_set, if_neg (fun h => hjc h.symm), hs]

/-! ## Lemmas on `updateruntime` -/

theorem qIncr_fields (p : Proc) :
    p.qIncr.state = p.state ∧ p.qIncr.tmp_wtime = p.tmp_wtime ∧ p.qIncr.cur_q = p.cur_q ∧
      p.qIncr.position_priority = p.position_priority ∧ p.qIncr.rtime = p.rtime ∧
      p.qIncr.tickflag = p.tickflag := by
  unfold Proc.qIncr
  split_ifs <;> exact ⟨rfl, rfl, rfl, rfl, rfl, rfl⟩

theorem account_eq (pol : Policy) (ticks : Int) (p : Proc) :
    account pol ticks p =
      if p.state = .RUNNING then
        (if pol = .MLFQ then
          ({ p with rtime := p.rtime + 1, tmp_wtime := 0, tickflag := ticks } : Proc).qIncr
        else { p with rtime := p.rtime + 1, tmp_wtime := 0, tickflag := ticks })
      else if p.state ≠ .UNUSED then { p with tmp_wtime := p.tmp_wtime + 1 }
      else p :=
  rfl

theorem account_fields (pol : Policy) (ticks : Int) (p : Proc) :
    (account pol ticks p).state = p.state ∧
      (account pol ticks p).tmp_wtime = waitedAfterAccounting p ∧
      (account pol ticks p).cur_q = p.cur_q ∧
      (account pol ticks p).position_priority = p.position_priority := by
  rw [account_eq]
  unfold waitedAfterAccounting
  by_cases hr : p.state = .RUNNING
  · rw [if_pos hr, if_pos hr]
    by_cases hm : pol = .MLFQ
    · rw [if_pos hm]
      have h := qIncr_fields
        { p with rtime := p.rtime + 1, tmp_wtime := 0, tickflag := ticks }
      exact ⟨h.1, h.2.1, h.2.2.1, h.2.2.2.1⟩
    · rw [if_neg hm]
      exact ⟨rfl, rfl, rfl, rfl⟩
  · rw [if_neg hr, if_neg hr]
    by_cases hu : p.state ≠ .UNUSED
    · rw [if_pos hu, if_pos hu]
      exact ⟨rfl, rfl, rfl, rfl⟩
    · rw [if_neg hu, if_neg hu]
      exact ⟨rfl, rfl, rfl, rfl⟩

theorem age_promotes (p : Proc) (pq : List ProcQueue)
    (h : p.state ≠ .UNUSED ∧ AGE_CUTOFF < p.tmp_wtime ∧ p.cur_q ≠ 0) :
    age p pq =
      ({ p with
         cur_q := p.cur_q - 1
         position_priority := 1 + largestPosition pq (p.cur_q - 1)
         tmp_wtime := 0 },
       setLargestPosition pq (p.cur_q - 1) (1 + largestPosition pq (p.cur_q - 1))) := by
  unfold age
  rw [if_pos h.1, if_pos (show p.tmp_wtime > AGE_CUTOFF from h.2.1), if_pos h.2.2]

theorem age_keeps (p : Proc) (pq : List ProcQueue)
    (h : ¬ (p.state ≠ .UNUSED ∧ AGE_CUTOFF < p.tmp_wtime ∧ p.cur_q ≠ 0)) :
    age p pq = (p, pq) := by
  unfold age
  by_cases h1 : p.state ≠ .UNUSED
  · rw [if_pos h1]
    by_cases h2 : p.tmp_wtime > AGE_CUTOFF
    · rw [if_pos h2]
      by_cases h3 : p.cur_q ≠ 0
      · exact absurd ⟨h1, h2, h3⟩ h
      · rw [if_neg h3]
    · rw [if_neg h2]
  · rw [if_neg h1]

theorem age_fields (p : Proc) (pq : List ProcQueue) :
    (age p pq).1.state = p.state ∧ (age p pq).1.rtime = p.rtime ∧
      (age p pq).1.tickflag = p.tickflag ∧ (age p pq).1.q0 = p.q0 ∧
      (age p pq).1.q1 = p.q1 ∧ (age p pq).1.q2 = p.q2 ∧ (age p pq).1.q3 = p.q3 ∧
      (age p pq).1.q4 = p.q4 ∧
      ((age p pq).1.tmp_wtime = p.tmp_wtime ∨ (age p pq).1.tmp_wtime = 0) := by
  by_cases h : p.state ≠ .UNUSED ∧ AGE_CUTOFF < p.tmp_wtime ∧ p.cur_q ≠ 0
  · rw [age_promotes p pq h]
    exact ⟨rfl, rfl, rfl, rfl, rfl, rfl, rfl, rfl, Or.inr rfl⟩
  · rw [age_keeps p pq h]
    exact ⟨rfl, rfl, rfl, rfl, rfl, rfl, rfl, rfl, Or.inl rfl⟩

theorem setLargestPosition_length (pq : List ProcQueue) (i v : Int) :
    (setLargestPosition pq i v).length = pq.length := by
  unfold setLargestPosition
  split
  · rfl
  · split
    · rfl
    · rw [List.length_set]

theorem largestPosition_set (pq : List ProcQueue) (i v : Int) (h0 : 0 ≤ i)
    (hlt : i.toNat < pq.length) :
    largestPosition (setLargestPosition pq i v) i = v := by
  unfold largestPosition setLargestPosition
  rw [if_neg (by omega), if_neg (by omega), List.getElem?_eq_getElem hlt]
  simp only []
  rw [List.getElem?_set]
  simp [hlt]

theorem tickSlot_length (pol : Policy) (ticks : Int) (p : Proc) (pq : List ProcQueue) :
    (tickSlot pol ticks p pq).2.length = pq.length := by
  unfold tickSlot
  split
  · by_cases h : (account pol ticks p).state ≠ .UNUSED ∧
        AGE_CUTOFF < (account pol ticks p).tmp_wtime ∧ (account pol ticks p).cur_q ≠ 0
    · rw [age_promotes _ pq h]
      exact setLargestPosition_length _ _ _
    · rw [age_keeps _ pq h]
  · rfl

theorem updateLoop_length (pol : Policy) (ticks : Int) (t : List Proc) (pq : List ProcQueue) :
    (updateLoop pol ticks t pq).2.length = pq.length := by
  induction t generalizing pq with
  | nil => rfl
  | cons a ps ih =>
    simp only [updateLoop]
    rw [ih, tickSlot_length]

theorem updateLoop_getElem? (pol : Policy) (ticks : Int) (t : List Proc)
    (pq : List ProcQueue) (j : Nat) (p : Proc) (hj : t[j]? = some p) :
    (updateLoop pol ticks t pq).1[j]? =
        some (tickSlot pol ticks p (updateLoop pol ticks (t.take j) pq).2).1 ∧
      (updateLoop pol ticks (t.take (j + 1)) pq).2 =
        (tickSlot pol ticks p (updateLoop pol ticks (t.take j) pq).2).2 := by
  induction t generalizing pq j with
  | nil => simp at hj
  | cons a ps ih =>
    cases j with
    | zero =>
      simp only [List.getElem?_cons_zero, Option.some.injEq] at hj
      subst hj
      simp [updateLoop]
    | succ j =>
      simp only [List.getElem?_cons_succ] at hj
      have h := ih (tickSlot pol ticks a pq).2 j hj
      simp only [updateLoop, List.take_succ_cons, List.getElem?_cons_succ]
      exact h

/-! ## Lemmas on the dispatch -/

theorem dispatch_eq (pol : Policy) (ticks : Int) (p : Proc) :
    dispatch pol ticks p =
      if p.tickflag ≠ ticks then
        (if pol = .MLFQ then
          ({ p with state := .RUNNING, n_run := p.n_run + 1, tmp_wtime := 0, io := 0,
                    tickflag := ticks, rtime := p.rtime + 1 } : Proc).qIncr
        else { p with state := .RUNNING, n_run := p.n_run + 1, tmp_wtime := 0, io := 0,
                      tickflag := ticks, rtime := p.rtime + 1 })
      else { p with state := .RUNNING, n_run := p.n_run + 1, tmp_wtime := 0, io := 0 } :=
  rfl

theorem qIncr_more_fields (p : Proc) :
    p.qIncr.n_run = p.n_run ∧ p.qIncr.io = p.io := by
  unfold Proc.qIncr
  split_ifs <;> exact ⟨rfl, rfl⟩

theorem qIncr_counters (p : Proc) :
    p.qIncr.q0 = p.q0 + (if p.cur_q = 0 then 1 else 0) ∧
      p.qIncr.q1 = p.q1 + (if p.cur_q = 1 then 1 else 0) ∧
      p.qIncr.q2 = p.q2 + (if p.cur_q = 2 then 1 else 0) ∧
      p.qIncr.q3 = p.q3 + (if p.cur_q = 3 then 1 else 0) ∧
      p.qIncr.q4 = p.q4 + (if p.cur_q = 4 then 1 else 0) := by
  unfold Proc.qIncr
  by_cases h0 : p.cur_q = 0
  · rw [if_pos h0, if_pos h0, if_neg (by omega), if_neg (by omega), if_neg (by omega),
      if_neg (by omega)]
    exact ⟨rfl, (add_zero _).symm, (add_zero _).symm, (add_zero _).symm, (add_zero _).symm⟩
  rw [if_neg h0, if_neg h0]
  by_cases h1 : p.cur_q = 1
  · rw [if_pos h1, if_pos h1, if_neg (by omega), if_neg (by omega), if_neg (by omega)]
    exact ⟨(add_zero _).symm, rfl, (add_zero _).symm, (add_zero _).symm, (add_zero _).symm⟩
  rw [if_neg h1, if_neg h1]
  by_cases h2 : p.cur_q = 2
  · rw [if_pos h2, if_pos h2, if_neg (by omega), if_neg (by omega)]
    exact ⟨(add_zero _).symm, (add_zero _).symm, rfl, (add_zero _).symm, (add_zero _).symm⟩
  rw [if_neg h2, if_neg h2]
  by_cases h3 : p.cur_q = 3
  · rw [if_pos h3, if_pos h3, if_neg (by omega)]
    exact ⟨(add_zero _).symm, (add_zero _).symm, (add_zero _).symm, rfl, (add_zero _).symm⟩
  rw [if_neg h3, if_neg h3]
  by_cases h4 : p.cur_q = 4
  · rw [if_pos h4, if_pos h4]
    exact ⟨(add_zero _).symm, (add_zero _).symm, (add_zero _).symm, (add_zero _).symm, rfl⟩
  rw [if_neg h4, if_neg h4]
  exact ⟨(add_zero _).symm, (add_zero _).symm, (add_zero _).symm, (add_zero _).symm,
    (add_zero _).symm⟩

theorem qIncr_qSum (p : Proc) (h0 : 0 ≤ p.cur_q) (h4 : p.cur_q ≤ 4) :
    p.qIncr.qSum = p.qSum + 1 := by
  obtain ⟨e0, e1, e2, e3, e4⟩ := qIncr_counters p
  unfold Proc.qSum
  rw [e0, e1, e2, e3, e4]
  split_ifs <;> omega

theorem dispatch_fields (pol : Policy) (ticks : Int) (p : Proc) :
    (dispatch pol ticks p).state = .RUNNING ∧
      (dispatch pol ticks p).n_run = p.n_run + 1 ∧
      (dispatch pol ticks p).tmp_wtime = 0 ∧
      (dispatch pol ticks p).io = 0 ∧
      (dispatch pol ticks p).tickflag = ticks ∧
      (dispatch pol ticks p).cur_q = p.cur_q ∧
      (dispatch pol ticks p).position_priority = p.position_priority ∧
      (dispatch pol ticks p).rtime = (if p.tickflag ≠ ticks then p.rtime + 1 else p.rtime) := by
  rw [dispatch_eq]
  by_cases ht : p.tickflag ≠ ticks
  · rw [if_pos ht, if_pos ht]
    by_cases hm : pol = .MLFQ
    · rw [if_pos hm]
      have h := qIncr_fields
        { p with state := .RUNNING, n_run := p.n_run + 1, tmp_wtime := 0, io := 0,
                 tickflag := ticks, rtime := p.rtime + 1 }
      have h2 := qIncr_more_fields
        { p with state := .RUNNING, n_run := p.n_run + 1, tmp_wtime := 0, io := 0,
                 tickflag := ticks, rtime := p.rtime + 1 }
      exact ⟨h.1, h2.1, h.2.1, h2.2, h.2.2.2.2.2, h.2.2.1, h.2.2.2.1, h.2.2.2.2.1⟩
    · rw [if_neg hm]
      exact ⟨rfl, rfl, rfl, rfl, rfl, rfl, rfl, rfl⟩
  · rw [if_neg ht, if_neg ht]
    exact ⟨rfl, rfl, rfl, rfl, not_not.1 ht, rfl, rfl, rfl⟩

theorem dispatchSlot_of_some (pol : Policy) (i : Nat) (k : Kernel) (p : Proc)
    (hp : k.proc[i]? = some p) :
    dispatchSlot pol i k = { k with proc := k.proc.set i (dispatch pol k.ticks p) } := by
  unfold dispatchSlot
  rw [hp]

theorem schedulerRound_snd (pol : Policy) (select : List Proc → Option Nat) (k : Kernel)
    (i : Nat) (h : (schedulerRound pol select k).1 = some i) :
    select k.proc = some i ∧ (schedulerRound pol select k).2 = dispatchSlot pol i k := by
  unfold schedulerRound at h ⊢
  cases hs : select k.proc with
  | none => rw [hs] at h; cases h
  | some j =>
    rw [hs] at h
    simp only [Option.some.injEq] at h
    subst h
    exact ⟨rfl, rfl⟩

/-! ## Lemmas on the MLFQ invariant -/

theorem allocproc_cases (pol : Policy) (kalloc : Nat) (k : Kernel) :
    allocproc pol kalloc k = (none, k) ∨
      ∃ (i : Nat) (p : Proc), k.proc[i]? = some p ∧
        (allocproc pol kalloc k =
            (none, { k with
                     proc := k.proc.set i
                       { p with pid := k.nextpid, kstack := 0, state := .UNUSED }
                     nextpid := k.nextpid + 1 }) ∨
          allocproc pol kalloc k =
            (some i, { k with
                       proc := k.proc.set i
                         (initSlot pol kalloc k.ticks
                           { p with state := .EMBRYO, pid := k.nextpid })
                       nextpid := k.nextpid + 1 })) := by
  cases hf : findUnused k.proc 0 with
  | none => exact Or.inl (allocproc_of_not_found pol kalloc k hf)
  | some ip =>
    obtain ⟨i, p⟩ := ip
    obtain ⟨i0, hi0, h1, -⟩ := firstUnused_of_findUnused _ _ _ _ hf
    rw [Nat.zero_add] at hi0
    subst hi0
    refine Or.inr ⟨i, p, h1, ?_⟩
    unfold allocproc
    rw [hf]
    by_cases hk : kalloc = 0
    · exact Or.inl (by simp [hk])
    · exact Or.inr (by simp [hk])

theorem initSlot_mlfq (kstack : Nat) (ticks : Int) (p : Proc) :
    (initSlot .MLFQ kstack ticks p).state = p.state ∧
      (initSlot .MLFQ kstack ticks p).cur_q = 0 ∧
      (initSlot .MLFQ kstack ticks p).qSum = 0 ∧
      (initSlot .MLFQ kstack ticks p).rtime = 0 ∧
      (initSlot .MLFQ kstack ticks p).position_priority = 0 := by
  simp [initSlot, Proc.qSum]

theorem mlfqInv_set (t : List Proc) (i : Nat) (x : Proc) (h : MlfqInv t)
    (hx : x.state ≠ .UNUSED → 0 ≤ x.cur_q ∧ x.cur_q ≤ 4 ∧ x.qSum = x.rtime) :
    MlfqInv (t.set i x) := by
  intro q hq
  rcases List.mem_or_eq_of_mem_set hq with hq | hq
  · exact h q hq
  · subst hq; exact hx

theorem mlfqInv_dispatch (ticks : Int) (p : Proc)
    (h : 0 ≤ p.cur_q ∧ p.cur_q ≤ 4 ∧ p.qSum = p.rtime) :
    0 ≤ (dispatch .MLFQ ticks p).cur_q ∧ (dispatch .MLFQ ticks p).cur_q ≤ 4 ∧
      (dispatch .MLFQ ticks p).qSum = (dispatch .MLFQ ticks p).rtime := by
  obtain ⟨h0, h4, hsum⟩ := h
  rw [dispatch_eq]
  by_cases ht : p.tickflag ≠ ticks
  · rw [if_pos ht, if_pos rfl]
    have hf := qIncr_fields
      { p with state := .RUNNING, n_run := p.n_run + 1, tmp_wtime := 0, io := 0,
               tickflag := ticks, rtime := p.rtime + 1 }
    have hs := qIncr_qSum
      { p with state := .RUNNING, n_run := p.n_run + 1, tmp_wtime := 0, io := 0,
               tickflag := ticks, rtime := p.rtime + 1 } h0 h4
    rw [hf.2.2.1, hf.2.2.2.2.1, hs]
    refine ⟨h0, h4, ?_⟩
    show p.qSum + 1 = p.rtime + 1
    rw [hsum]
  · rw [if_neg ht]
    exact ⟨h0, h4, hsum⟩

theorem mlfqInv_tickSlot (ticks : Int) (p : Proc) (pq : List ProcQueue)
    (h : p.state ≠ .UNUSED → 0 ≤ p.cur_q ∧ p.cur_q ≤ 4 ∧ p.qSum = p.rtime) :
    (tickSlot .MLFQ ticks p pq).1.state ≠ .UNUSED →
      0 ≤ (tickSlot .MLFQ ticks p pq).1.cur_q ∧ (tickSlot .MLFQ ticks p pq).1.cur_q ≤ 4 ∧
        (tickSlot .MLFQ ticks p pq).1.qSum = (tickSlot .MLFQ ticks p pq).1.rtime := by
  have htick : tickSlot .MLFQ ticks p pq = age (account .MLFQ ticks p) pq := by
    unfold tickSlot
    rw [if_pos rfl]
  rw [htick]
  obtain ⟨a1, a2, a3, a4, a5, a6, a7, a8, -⟩ := age_fields (account .MLFQ ticks p) pq
  obtain ⟨b1, -, b3, -⟩ := account_fields .MLFQ ticks p
  intro hst
  rw [a1, b1] at hst
  obtain ⟨h0, h4, hsum⟩ := h hst
  -- the accounting keeps the range of cur_q and the sum
  have hacc : (account .MLFQ ticks p).qSum = (account .MLFQ ticks p).rtime := by
    rw [account_eq]
    by_cases hr : p.state = .RUNNING
    · rw [if_pos hr, if_pos rfl]
      have hs := qIncr_qSum
        ({ p with rtime := p.rtime + 1, tmp_wtime := 0, tickflag := ticks } : Proc) h0 h4
      have hf := qIncr_fields
        ({ p with rtime := p.rtime + 1, tmp_wtime := 0, tickflag := ticks } : Proc)
      rw [hs, hf.2.2.2.2.1]
      show p.qSum + 1 = p.rtime + 1
      rw [hsum]
    · rw [if_neg hr, if_pos hst]
      exact hsum
  have hsum2 : (age (account .MLFQ ticks p) pq).1.qSum =
      (age (account .MLFQ ticks p) pq).1.rtime := by
    unfold Proc.qSum at hacc ⊢
    rw [a2, a4, a5, a6, a7, a8]
    exact hacc
  refine ⟨?_, ?_, hsum2⟩
  · by_cases hage : (account .MLFQ ticks p).state ≠ .UNUSED ∧
        AGE_CUTOFF < (account .MLFQ ticks p).tmp_wtime ∧ (account .MLFQ ticks p).cur_q ≠ 0
    · rw [age_promotes _ _ hage]
      have hne := hage.2.2
      rw [b3] at hne
      show 0 ≤ (account .MLFQ ticks p).cur_q - 1
      rw [b3]
      omega
    · rw [age_keeps _ _ hage, b3]
      exact h0
  · by_cases hage : (account .MLFQ ticks p).state ≠ .UNUSED ∧
        AGE_CUTOFF < (account .MLFQ ticks p).tmp_wtime ∧ (account .MLFQ ticks p).cur_q ≠ 0
    · rw [age_promotes _ _ hage]
      show (account .MLFQ ticks p).cur_q - 1 ≤ 4
      rw [b3]
      omega
    · rw [age_keeps _ _ hage, b3]
      exact h4

theorem updateLoop_mem (pol : Policy) (ticks : Int) (t : List Proc) (pq : List ProcQueue)
    (q : Proc) (hq : q ∈ (updateLoop pol ticks t pq).1) :
    ∃ p ∈ t, ∃ pq1, q = (tickSlot pol ticks p pq1).1 := by
  induction t generalizing pq with
  | nil => simp [updateLoop] at hq
  | cons a ps ih =>
    simp only [updateLoop, List.mem_cons] at hq
    rcases hq with hq | hq
    · exact ⟨a, List.mem_cons_self a ps, pq, hq⟩
    · obtain ⟨p0, hp0, pq1, h⟩ := ih _ hq
      exact ⟨p0, List.mem_cons_of_mem a hp0, pq1, h⟩

/-! ## Lemmas on the queue positions -/

theorem largestPosition_set_or (pq : List ProcQueue) (c v : Int) :
    setLargestPosition pq c v = pq ∨
      (0 ≤ c ∧ c.toNat < pq.length ∧ largestPosition (setLargestPosition pq c v) c = v) := by
  by_cases h0 : c < 0
  · left
    unfold setLargestPosition
    rw [if_pos h0]
  · by_cases hlt : c.toNat < pq.length
    · exact Or.inr ⟨by omega, hlt, largestPosition_set pq c v (by omega) hlt⟩
    · left
      unfold setLargestPosition
      rw [if_neg h0, List.getElem?_eq_none (by omega)]

theorem largestPosition_set_ne (pq : List ProcQueue) (c c1 v : Int) (h : c1 ≠ c) :
    largestPosition (setLargestPosition pq c v) c1 = largestPosition pq c1 := by
  rcases largestPosition_set_or pq c v with he | ⟨h0, hlt, -⟩
  · rw [he]
  · unfold largestPosition
    by_cases h1 : c1 < 0
    · rw [if_pos h1, if_pos h1]
    · rw [if_neg h1, if_neg h1]
      unfold setLargestPosition
      rw [if_neg (by omega), List.getElem?_eq_getElem hlt]
      simp only []
      rw [List.getElem?_set, if_neg (by omega)]

theorem queuesOk_requeue (pq : List ProcQueue) (c : Int) (h : QueuesOk pq)
    (h0 : 0 ≤ c) (h4 : c ≤ 4) :
    QueuesOk (setLargestPosition pq c (1 + largestPosition pq c)) ∧
      largestPosition (setLargestPosition pq c (1 + largestPosition pq c)) c =
        1 + largestPosition pq c ∧
      ∀ c1, largestPosition pq c1 ≤
        largestPosition (setLargestPosition pq c (1 + largestPosition pq c)) c1 := by
  obtain ⟨hlen, hnn⟩ := h
  have hset := largestPosition_set pq c (1 + largestPosition pq c) h0 (by rw [hlen]; omega)
  have hmono : ∀ c1, largestPosition pq c1 ≤
      largestPosition (setLargestPosition pq c (1 + largestPosition pq c)) c1 := by
    intro c1
    by_cases hc : c1 = c
    · subst hc
      rw [hset]
      omega
    · rw [largestPosition_set_ne pq c c1 _ hc]
  refine ⟨⟨by rw [setLargestPosition_length, hlen], fun c1 => ?_⟩, hset, hmono⟩
  exact le_trans (hnn c1) (hmono c1)

theorem slotOk_mono (pq pq1 : List ProcQueue) (p : Proc) (h : SlotOk pq p)
    (hm : ∀ c, largestPosition pq c ≤ largestPosition pq1 c) : SlotOk pq1 p :=
  ⟨h.1, h.2.1, le_trans h.2.2 (hm p.cur_q)⟩

theorem tickSlot_queues (ticks : Int) (p : Proc) (pq : List ProcQueue)
    (hq : QueuesOk pq) (hp : SlotOk pq p) :
    QueuesOk (tickSlot .MLFQ ticks p pq).2 ∧
      SlotOk (tickSlot .MLFQ ticks p pq).2 (tickSlot .MLFQ ticks p pq).1 ∧
      ∀ c, largestPosition pq c ≤ largestPosition (tickSlot .MLFQ ticks p pq).2 c := by
  have htick : tickSlot .MLFQ ticks p pq = age (account .MLFQ ticks p) pq := by
    unfold tickSlot
    rw [if_pos rfl]
  rw [htick]
  obtain ⟨-, -, b3, b4⟩ := account_fields .MLFQ ticks p
  obtain ⟨h0, h4, hpos⟩ := hp
  by_cases hage : (account .MLFQ ticks p).state ≠ .UNUSED ∧
      AGE_CUTOFF < (account .MLFQ ticks p).tmp_wtime ∧ (account .MLFQ ticks p).cur_q ≠ 0
  · rw [age_promotes _ _ hage]
    have hne := hage.2.2
    rw [b3] at hne
    obtain ⟨g1, g2, g3⟩ := queuesOk_requeue pq (p.cur_q - 1) hq (by omega) (by omega)
    rw [b3]
    refine ⟨g1, ⟨?_, ?_, ?_⟩, g3⟩
    · show 0 ≤ p.cur_q - 1
      omega
    · show p.cur_q - 1 ≤ 4
      omega
    · show 1 + largestPosition pq (p.cur_q - 1) ≤
        largestPosition (setLargestPosition pq (p.cur_q - 1)
          (1 + largestPosition pq (p.cur_q - 1))) (p.cur_q - 1)
      rw [g2]
  · rw [age_keeps _ _ hage]
    refine ⟨hq, ⟨?_, ?_, ?_⟩, fun c => le_refl _⟩
    · rw [b3]; exact h0
    · rw [b3]; exact h4
    · rw [b3, b4]; exact hpos

theorem updateLoop_queues (ticks : Int) (t : List Proc) (pq : List ProcQueue)
    (hq : QueuesOk pq) (ht : ∀ p ∈ t, SlotOk pq p) :
    QueuesOk (updateLoop .MLFQ ticks t pq).2 ∧
      (∀ q ∈ (updateLoop .MLFQ ticks t pq).1, SlotOk (updateLoop .MLFQ ticks t pq).2 q) ∧
      ∀ c, largestPosition pq c ≤ largestPosition (updateLoop .MLFQ ticks t pq).2 c := by
  induction t generalizing pq with
  | nil => exact ⟨hq, fun q hq1 => by simp [updateLoop] at hq1, fun c => le_refl _⟩
  | cons a ps ih =>
    obtain ⟨g1, g2, g3⟩ := tickSlot_queues ticks a pq hq (ht a (List.mem_cons_self a ps))
    obtain ⟨i1, i2, i3⟩ := ih (tickSlot .MLFQ ticks a pq).2 g1
      (fun q hq1 => slotOk_mono _ _ q (ht q (List.mem_cons_of_mem a hq1)) g3)
    simp only [updateLoop]
    refine ⟨i1, fun q hq1 => ?_, fun c => le_trans (g3 c) (i3 c)⟩
    rcases List.mem_cons.1 hq1 with h | h
    · rw [h]
      exact slotOk_mono _ _ _ g2 i3
    · exact i2 q h

theorem sleepRequeue_eq (p : Proc) (pq : List ProcQueue) :
    sleepRequeue p pq =
      if p.io = 0 then
        ({ p with io := 1, position_priority := 1 + largestPosition pq p.cur_q },
          setLargestPosition pq p.cur_q (1 + largestPosition pq p.cur_q))
      else (p, pq) :=
  rfl

theorem sleep_ok (chan lk : Nat) (i : Nat) (k : Kernel) (p : Proc)
    (hp : k.proc[i]? = some p) (hlk : lk ≠ 0) :
    sleep .MLFQ chan lk (some i) k =
      .ok { k with
            proc := k.proc.set i
              { (sleepRequeue p k.proc_queue).1 with chan := chan, state := .SLEEPING }
            proc_queue := (sleepRequeue p k.proc_queue).2 } := by
  unfold sleep
  simp only []
  rw [if_neg hlk, hp]
  simp only [if_true]

theorem sleep_ok_cases (chan lk : Nat) (i : Nat) (k k1 : Kernel)
    (h : sleep .MLFQ chan lk (some i) k = .ok k1) :
    k1 = k ∨ ∃ p, k.proc[i]? = some p ∧
      k1 = { k with
             proc := k.proc.set i
               { (sleepRequeue p k.proc_queue).1 with chan := chan, state := .SLEEPING }
             proc_queue := (sleepRequeue p k.proc_queue).2 } := by
  by_cases hlk : lk = 0
  · unfold sleep at h
    simp only [] at h
    rw [if_pos hlk] at h
    cases h
  · cases hp : k.proc[i]? with
    | none =>
      unfold sleep at h
      simp only [] at h
      rw [if_neg hlk, hp] at h
      simp only [Except.ok.injEq] at h
      exact Or.inl h.symm
    | some p =>
      rw [sleep_ok chan lk i k p hp hlk] at h
      simp only [Except.ok.injEq] at h
      exact Or.inr ⟨p, rfl, h.symm⟩

theorem sleepRequeue_queues (p : Proc) (pq : List ProcQueue) (hq : QueuesOk pq)
    (hp : SlotOk pq p) :
    QueuesOk (sleepRequeue p pq).2 ∧
      SlotOk (sleepRequeue p pq).2 (sleepRequeue p pq).1 ∧
      ∀ c, largestPosition pq c ≤ largestPosition (sleepRequeue p pq).2 c := by
  rw [sleepRequeue_eq]
  obtain ⟨h0, h4, hpos⟩ := hp
  by_cases hio : p.io = 0
  · rw [if_pos hio]
    obtain ⟨g1, g2, g3⟩ := queuesOk_requeue pq p.cur_q hq h0 h4
    exact ⟨g1, ⟨h0, h4, le_of_eq g2.symm⟩, g3⟩
  · rw [if_neg hio]
    exact ⟨hq, ⟨h0, h4, hpos⟩, fun c => le_refl _⟩

/-! ## The invariant of the reachable MLFQ states -/

theorem largestPosition_nonneg (pq : List ProcQueue)
    (h : ∀ q ∈ pq, 0 ≤ q.largest_position) (c : Int) : 0 ≤ largestPosition pq c := by
  unfold largestPosition
  by_cases h0 : c < 0
  · rw [if_pos h0]
  · rw [if_neg h0]
    cases hq : pq[c.toNat]? with
    | none => exact le_refl _
    | some q => exact h q (List.getElem?_mem hq)

theorem queueInv_set (k : Kernel) (i : Nat) (x : Proc) (h : QueueInv k)
    (hx : SlotOk k.proc_queue x) : QueueInv { k with proc := k.proc.set i x } := by
  refine ⟨h.1, fun q hq => ?_⟩
  rcases List.mem_or_eq_of_mem_set hq with hq | hq
  · exact h.2 q hq
  · rw [hq]; exact hx

theorem queueInv_boot (nproc : Nat) : QueueInv (pinit .MLFQ (bootKernel nproc)) := by
  have hpq : (pinit .MLFQ (bootKernel nproc)).proc_queue =
      (List.range 5).map fun i => { timeslice_cutoff := 2 ^ i, largest_position := 0 } := by
    unfold pinit
    rw [if_pos rfl]
  have hproc : (pinit .MLFQ (bootKernel nproc)).proc = List.replicate nproc Proc.zero := by
    unfold pinit
    rw [if_pos rfl]
    rfl
  have hnn : ∀ c : Int, 0 ≤ largestPosition (pinit .MLFQ (bootKernel nproc)).proc_queue c := by
    intro c
    apply largestPosition_nonneg
    intro q hq
    rw [hpq, List.mem_map] at hq
    obtain ⟨n, -, hn⟩ := hq
    rw [← hn]
  refine ⟨⟨by rw [hpq]; simp, hnn⟩, fun p hp => ?_⟩
  rw [hproc] at hp
  have hz := (List.mem_replicate.1 hp).2
  subst hz
  exact ⟨le_refl _, by decide, hnn 0⟩

theorem reachable_queueInv (k : Kernel) (h : MlfqReachable k) : QueueInv k := by
  induction h with
  | boot nproc => exact queueInv_boot nproc
  | alloc kalloc k _ ih =>
    rcases allocproc_cases .MLFQ kalloc k with h | ⟨j, p, hp, h | h⟩
    · rw [h]; exact ih
    · rw [h]
      exact queueInv_set { k with nextpid := k.nextpid + 1 } j _ ih
        (ih.2 p (List.getElem?_mem hp))
    · rw [h]
      obtain ⟨-, e2, -, -, e5⟩ :=
        initSlot_mlfq kalloc k.ticks { p with state := .EMBRYO, pid := k.nextpid }
      refine queueInv_set { k with nextpid := k.nextpid + 1 } j _ ih ⟨?_, ?_, ?_⟩
      · rw [e2]
      · rw [e2]; decide
      · rw [e2, e5]; exact ih.1.2 0
  | sleep chan lk i k k1 _ hs ih =>
    rcases sleep_ok_cases chan lk i k k1 hs with h | ⟨p, hp, h⟩
    · rw [h]; exact ih
    · obtain ⟨g1, g2, g3⟩ :=
        sleepRequeue_queues p k.proc_queue ih.1 (ih.2 p (List.getElem?_mem hp))
      rw [h]
      refine ⟨g1, fun q hq => ?_⟩
      rcases List.mem_or_eq_of_mem_set hq with hq | hq
      · exact slotOk_mono _ _ q (ih.2 q hq) g3
      · rw [hq]; exact g2
  | round k _ ih =>
    cases hsel : (mlfqRound k).1 with
    | none =>
      have hk : (mlfqRound k).2 = k := by
        unfold mlfqRound schedulerRound at hsel ⊢
        cases hs : mlfqSelect k.proc with
        | none => rfl
        | some j => rw [hs] at hsel; cases hsel
      rw [hk]; exact ih
    | some i =>
      have hk : (mlfqRound k).2 = dispatchSlot .MLFQ i k :=
        (schedulerRound_snd .MLFQ mlfqSelect k i hsel).2
      rw [hk]
      cases hp : k.proc[i]? with
      | none =>
        unfold dispatchSlot
        rw [hp]
        exact ih
      | some p =>
        rw [dispatchSlot_of_some .MLFQ i k p hp]
        obtain ⟨-, -, -, -, -, f6, f7, -⟩ := dispatch_fields .MLFQ k.ticks p
        obtain ⟨h0, h4, hpos⟩ := ih.2 p (List.getElem?_mem hp)
        exact queueInv_set k i _ ih ⟨by rw [f6]; exact h0, by rw [f6]; exact h4,
          by rw [f6, f7]; exact hpos⟩
  | tick ticks k _ ih =>
    obtain ⟨g1, g2, -⟩ := updateLoop_queues ticks k.proc k.proc_queue ih.1 ih.2
    exact ⟨g1, g2⟩
  | other i p q k _ hp hc hpos ih =>
    have hslot : SlotOk k.proc_queue q := by
      unfold SlotOk
      rw [hc, hpos]
      exact ih.2 p (List.getElem?_mem hp)
    exact queueInv_set k i q ih hslot
  | demote i k _ _ ih =>
    unfold demote
    cases hp : k.proc[i]? with
    | none => exact ih
    | some p =>
      obtain ⟨h0, h4, -⟩ := ih.2 p (List.getElem?_mem hp)
      have hc0 : 0 ≤ min (p.cur_q + 1) 4 := by omega
      have hc4 : min (p.cur_q + 1) 4 ≤ 4 := by omega
      obtain ⟨g1, g2, g3⟩ := queuesOk_requeue k.proc_queue (min (p.cur_q + 1) 4) ih.1 hc0 hc4
      refine ⟨g1, fun q hq => ?_⟩
      rcases List.mem_or_eq_of_mem_set hq with hq | hq
      · exact slotOk_mono _ _ q (ih.2 q hq) g3
      · rw [hq]
        exact ⟨hc0, hc4, le_of_eq g2.symm⟩

theorem reachable_runAndDemote (i : Nat) (k : Kernel) (h : MlfqReachable k)
    (hi : i < k.proc.length) : MlfqReachable (runAndDemote i k) := by
  unfold runAndDemote
  have hst : MlfqReachable (setState i .RUNNING k) := by
    unfold setState
    cases hp : k.proc[i]? with
    | none => exact h
    | some p => exact MlfqReachable.other i p { p with state := .RUNNING } k h hp rfl rfl
  refine MlfqReachable.demote i _ hst ?_
  unfold setState
  cases hp : k.proc[i]? with
  | none =>
    rw [List.getElem?_eq_none_iff] at hp
    omega
  | some p => simp [List.getElem?_set, hi]

theorem reachable_setState (i : Nat) (st : ProcState) (k : Kernel) (h : MlfqReachable k) :
    MlfqReachable (setState i st k) := by
  unfold setState
  cases hp : k.proc[i]? with
  | none => exact h
  | some p => exact MlfqReachable.other i p { p with state := st } k h hp rfl rfl

/-! ## The claims -/

/-- C1: under MLFQ the selection scan of the scheduler returns no slot exactly
when no slot of the table is RUNNABLE; it returns slot `i` exactly when slot
`i` is RUNNABLE, its pair (cur_q, position_priority) is lexicographically at
most that of every RUNNABLE slot, and no RUNNABLE slot of lower index has the
same pair. -/
theorem mlfq_select_first_lex_min (t : List Proc) :
    (mlfqSelect t = none ↔ ∀ p ∈ t, p.state ≠ .RUNNABLE) ∧
    ∀ i, mlfqSelect t = some i ↔
      ∃ p, t[i]? = some p ∧ p.state = .RUNNABLE ∧
        ∀ j q, t[j]? = some q → q.state = .RUNNABLE →
          (p.cur_q < q.cur_q ∨
            (p.cur_q = q.cur_q ∧ p.position_priority ≤ q.position_priority)) ∧
          (j < i → ¬ (q.cur_q = p.cur_q ∧ q.position_priority = p.position_priority)) := by
  refine ⟨selectBy_eq_none _ _ mlfqBetter_iff t, fun i => ?_⟩
  rw [mlfqSelect, selectBy_eq_some _ _ mlfqBetter_iff t i]
  constructor
  · rintro ⟨p, hp, hrun, hmin⟩
    refine ⟨p, hp, hrun, fun j q hj hq => ?_⟩
    obtain ⟨hle, hlt⟩ := hmin j q hj hq
    rw [Prod.Lex.le_iff] at hle
    refine ⟨hle, fun hji => ?_⟩
    have := hlt hji
    rw [Prod.Lex.lt_iff] at this
    simp only at this
    rintro ⟨h1, h2⟩
    omega
  · rintro ⟨p, hp, hrun, hmin⟩
    refine ⟨p, hp, hrun, fun j q hj hq => ?_⟩
    obtain ⟨hle, hne⟩ := hmin j q hj hq
    rw [Prod.Lex.le_iff, Prod.Lex.lt_iff]
    refine ⟨hle, fun hji => ?_⟩
    have := hne hji
    simp only
    omega

/-- C2: under FCFS the selection scan returns no slot exactly when no slot is
RUNNABLE; it returns slot `i` exactly when slot `i` is RUNNABLE, its ctime is
at most that of every RUNNABLE slot and strictly below that of every RUNNABLE
slot of lower index.  So when the RUNNABLE slots of a table are three
processes created at ticks 10, 11 and 12, wherever they sit, the scan picks
the first of them, then (once that one is a ZOMBIE) the second, then the
third. -/
theorem fcfs_select_earliest (t : List Proc) :
    (fcfsSelect t = none ↔ ∀ p ∈ t, p.state ≠ .RUNNABLE) ∧
    (∀ i, fcfsSelect t = some i ↔
      ∃ p, t[i]? = some p ∧ p.state = .RUNNABLE ∧
        ∀ j q, t[j]? = some q → q.state = .RUNNABLE →
          p.ctime ≤ q.ctime ∧ (j < i → p.ctime < q.ctime)) ∧
    ∀ a b c pa pb pc, t[a]? = some pa → t[b]? = some pb → t[c]? = some pc →
      pa.state = .RUNNABLE → pb.state = .RUNNABLE → pc.state = .RUNNABLE →
      pa.ctime = 10 → pb.ctime = 11 → pc.ctime = 12 →
      (∀ j q, t[j]? = some q → q.state = .RUNNABLE → j = a ∨ j = b ∨ j = c) →
      fcfsSelect t = some a ∧
      fcfsSelect (t.set a { pa with state := .ZOMBIE }) = some b ∧
      fcfsSelect ((t.set a { pa with state := .ZOMBIE }).set b
        { pb with state := .ZOMBIE }) = some c := by
  have hsome := fun (t : List Proc) (i : Nat) =>
    selectBy_eq_some (fun p : Proc => p.ctime) fcfsBetter fcfsBetter_iff t i
  refine ⟨selectBy_eq_none (fun p : Proc => p.ctime) _ fcfsBetter_iff t, hsome t, ?_⟩
  intro a b c pa pb pc ha hb hc hra hrb hrc hta htb htc hothers
  have hab : a ≠ b := by
    rintro rfl
    rw [ha] at hb
    simp only [Option.some.injEq] at hb
    subst hb; omega
  have hac : a ≠ c := by
    rintro rfl
    rw [ha] at hc
    simp only [Option.some.injEq] at hc
    subst hc; omega
  have hbc : b ≠ c := by
    rintro rfl
    rw [hb] at hc
    simp only [Option.some.injEq] at hc
    subst hc; omega
  have hct : ∀ j q, t[j]? = some q → q.state = .RUNNABLE →
      (j = a ∧ q = pa) ∨ (j = b ∧ q = pb) ∨ (j = c ∧ q = pc) := by
    intro j q hj hq
    rcases hothers j q hj hq with h | h | h
    · subst h
      rw [ha] at hj
      simp only [Option.some.injEq] at hj
      exact Or.inl ⟨rfl, hj.symm⟩
    · subst h
      rw [hb] at hj
      simp only [Option.some.injEq] at hj
      exact Or.inr (Or.inl ⟨rfl, hj.symm⟩)
    · subst h
      rw [hc] at hj
      simp only [Option.some.injEq] at hj
      exact Or.inr (Or.inr ⟨rfl, hj.symm⟩)
  have hb1 : (t.set a { pa with state := .ZOMBIE })[b]? = some pb := by
    rw [List.getElem?_set, if_neg hab]; exact hb
  have hc1 : (t.set a { pa with state := .ZOMBIE })[c]? = some pc := by
    rw [List.getElem?_set, if_neg hac]; exact hc
  have hc2 : ((t.set a { pa with state := .ZOMBIE }).set b
      { pb with state := .ZOMBIE })[c]? = some pc := by
    rw [List.getElem?_set, if_neg hbc]; exact hc1
  refine ⟨?_, ?_, ?_⟩
  · unfold fcfsSelect
    rw [hsome]
    refine ⟨pa, ha, hra, fun j q hj hq => ?_⟩
    rcases hct j q hj hq with ⟨h1, h2⟩ | ⟨h1, h2⟩ | ⟨h1, h2⟩ <;> subst h2 <;>
      constructor <;> intros <;> omega
  · unfold fcfsSelect
    rw [hsome]
    refine ⟨pb, hb1, hrb, fun j q hj hq => ?_⟩
    obtain ⟨hja, hj0⟩ := getElem?_set_zombie t a pa j q hj hq
    rcases hct j q hj0 hq with ⟨h1, h2⟩ | ⟨h1, h2⟩ | ⟨h1, h2⟩
    · exact absurd h1 hja
    · subst h2; constructor <;> intros <;> omega
    · subst h2; constructor <;> intros <;> omega
  · unfold fcfsSelect
    rw [hsome]
    refine ⟨pc, hc2, hrc, fun j q hj hq => ?_⟩
    obtain ⟨hjb, hj1⟩ := getElem?_set_zombie _ b pb j q hj hq
    obtain ⟨hja, hj0⟩ := getElem?_set_zombie t a pa j q hj1 hq
    rcases hct j q hj0 hq with ⟨h1, h2⟩ | ⟨h1, h2⟩ | ⟨h1, h2⟩
    · exact absurd h1 hja
    · exact absurd h1 hjb
    · subst h2; constructor <;> intros <;> omega

/-- C3: under PBS the selection scan returns no slot exactly when no slot is
RUNNABLE; it returns slot `i` exactly when slot `i` is RUNNABLE, its priority
value is at most that of every RUNNABLE slot and strictly below that of every
RUNNABLE slot of lower index. -/
theorem pbs_select_highest_priority (t : List Proc) :
    (pbsSelect t = none ↔ ∀ p ∈ t, p.state ≠ .RUNNABLE) ∧
    ∀ i, pbsSelect t = some i ↔
      ∃ p, t[i]? = some p ∧ p.state = .RUNNABLE ∧
        ∀ j q, t[j]? = some q → q.state = .RUNNABLE →
          p.priority ≤ q.priority ∧ (j < i → p.priority < q.priority) :=
  ⟨selectBy_eq_none (fun p : Proc => p.priority) _ pbsBetter_iff t,
   selectBy_eq_some (fun p : Proc => p.priority) _ pbsBetter_iff t⟩

theorem fcfs_select_earliest_witness :
    fcfsSelect fcfsTable = some 2 ∧
    fcfsSelect (fcfsTable.set 2
      { ({ Proc.zero with state := .RUNNABLE, pid := 3, ctime := 10 } : Proc) with
        state := .ZOMBIE }) = some 3 ∧
    fcfsSelect ((fcfsTable.set 2
      { ({ Proc.zero with state := .RUNNABLE, pid := 3, ctime := 10 } : Proc) with
        state := .ZOMBIE }).set 3
      { ({ Proc.zero with state := .RUNNABLE, pid := 4, ctime := 11 } : Proc) with
        state := .ZOMBIE }) = some 0 :=
  (fcfs_select_earliest fcfsTable).2.2 2 3 0 _ _ _ rfl rfl rfl rfl rfl rfl rfl rfl rfl
    (by
      intro j q hj hq
      rcases j with _ | _ | _ | _ | j
      · exact Or.inr (Or.inr rfl)
      · simp only [fcfsTable, List.getElem?_cons_succ, List.getElem?_cons_zero,
          Option.some.injEq] at hj
        subst hj
        cases hq
      · exact Or.inl rfl
      · exact Or.inr (Or.inl rfl)
      · simp [fcfsTable] at hj)

/-- C4 as stated fails: with two RUNNABLE processes that give the CPU back
through `yield`, one pass of the RR loop dispatches slot 0 and then slot 1,
and at the second decision slot 0 is RUNNABLE again, so the slot dispatched
is not the RUNNABLE slot of lowest index. -/
theorem rr_second_dispatch_not_lowest :
    ((rrPass yieldBack twoRunnable).1.map fun r => (r.1, r.2.proc.map fun p => p.state)) =
        [(0, [.RUNNABLE, .RUNNABLE]), (1, [.RUNNABLE, .RUNNABLE])] ∧
      ¬ ∀ r ∈ (rrPass yieldBack twoRunnable).1, FirstRunnable r.2.proc r.1 := by
  refine ⟨by decide, fun h => ?_⟩
  have h1 := h ((rrPass yieldBack twoRunnable).1.getLast (by decide))
    (List.getLast_mem _)
  exact h1.2 0 (by decide) ⟨_, rfl, rfl⟩

/-- C4, amended: in every pass of the RR scheduler loop each dispatched slot is
RUNNABLE at the moment it is chosen and is the first RUNNABLE slot at or after
the scan position, which is index 0 at the start of the pass and the index
after the slot dispatched last later on; in particular the first dispatch of a
pass is the RUNNABLE slot with the lowest table index. -/
theorem rr_dispatch_first_runnable_from_scan (run : Nat → Kernel → Kernel)
    (idle : Kernel → Kernel) (n : Nat) (k : Kernel) (pass : List (Nat × Kernel))
    (hpass : pass ∈ rrScheduler run idle n k) :
    RRPassOk 0 pass ∧
      ∀ i kd rest, pass = (i, kd) :: rest → FirstRunnable kd.proc i := by
  have h := rrScheduler_ok run idle n k pass hpass
  refine ⟨h, fun i kd rest hp => ?_⟩
  subst hp
  simp only [RRPassOk] at h
  exact ⟨h.2.1, fun j hj => h.2.2.1 j (Nat.zero_le j) hj⟩

theorem rr_dispatch_first_runnable_from_scan_witness :
    RRPassOk 0 (rrPass yieldBack twoRunnable).1 ∧
      ∀ i kd rest, (rrPass yieldBack twoRunnable).1 = (i, kd) :: rest →
        FirstRunnable kd.proc i :=
  rr_dispatch_first_runnable_from_scan yieldBack id 1 twoRunnable
    (rrPass yieldBack twoRunnable).1 (by simp [rrScheduler])

/-- C5: when slot `i` is the first slot in table order that is not UNUSED and
has pid `pid`, `set_priority(new, pid)` returns the priority that slot had and
leaves the table with only that slot's priority changed, to `new` clamped into
[0,100]; when no slot that is not UNUSED has that pid it returns -1 and leaves
the table as it was.  The clamp is `max 0 (min new 100)`, and a table in which
some slot that is not UNUSED has the pid has a first such slot. -/
theorem set_priority_spec (t : List Proc) (new_priority pid : Int) :
    (∀ i p, FirstLive t pid i p →
      set_priority new_priority pid t =
        (p.priority, t.set i { p with priority := max 0 (min new_priority 100) })) ∧
    ((∀ p ∈ t, ¬ (p.state ≠ .UNUSED ∧ p.pid = pid)) →
      set_priority new_priority pid t = (-1, t)) ∧
    ((∃ q ∈ t, q.state ≠ .UNUSED ∧ q.pid = pid) → ∃ i p, FirstLive t pid i p) := by
  refine ⟨fun i p h => ?_, fun h => ?_, fun h => ?_⟩
  · rw [← clampPriority_eq]
    exact setPriorityLoop_of_firstLive _ pid t (-1) i p h
  · exact setPriorityLoop_of_none _ pid t (-1) h
  · obtain ⟨i, p, h1, ⟨h2, h3⟩, h4⟩ :=
      exists_first_slot (fun q => q.state ≠ .UNUSED ∧ q.pid = pid) t h
    exact ⟨i, p, h1, h2, h3, h4⟩

/-- C6: in a table with a live process of pid `pid`, let slot `i` be the
first live slot with that pid (there is one).  The call `set_priority(x, pid)`
returns the priority the slot had, a following call `set_priority(y, pid)`
returns `x` clamped into [0,100], and afterwards the slot differs from what it
was only in its priority, which is `y` clamped into [0,100]. -/
theorem set_priority_twice (t : List Proc) (x y pid : Int) :
    ((∃ q ∈ t, q.state ≠ .UNUSED ∧ q.pid = pid) → ∃ i p, FirstLive t pid i p) ∧
    ∀ i p, FirstLive t pid i p →
      (set_priority x pid t).1 = p.priority ∧
      (set_priority y pid (set_priority x pid t).2).1 = max 0 (min x 100) ∧
      (set_priority y pid (set_priority x pid t).2).2 =
        t.set i { p with priority := max 0 (min y 100) } ∧
      (set_priority y pid (set_priority x pid t).2).2[i]? =
        some { p with priority := max 0 (min y 100) } := by
  refine ⟨fun h => ?_, fun i p h => ?_⟩
  · obtain ⟨i, p, h1, ⟨h2, h3⟩, h4⟩ :=
      exists_first_slot (fun q => q.state ≠ .UNUSED ∧ q.pid = pid) t h
    exact ⟨i, p, h1, h2, h3, h4⟩
  have h1 : set_priority x pid t = (p.priority, t.set i { p with priority := clampPriority x }) :=
    setPriorityLoop_of_firstLive _ pid t (-1) i p h
  have h2 := setPriorityLoop_of_firstLive (clampPriority y) pid _ (-1) i _
    (firstLive_set_priority t pid i p (clampPriority x) h)
  have hi : i < t.length := by
    by_contra hge
    have h0 := h.1
    rw [List.getElem?_eq_none (by omega)] at h0
    cases h0
  have h3 : set_priority y pid (set_priority x pid t).2 =
      (clampPriority x, t.set i { p with priority := clampPriority y }) := by
    rw [h1]
    unfold set_priority
    rw [h2]
    simp [List.set_set]
  rw [h3, h1, ← clampPriority_eq, ← clampPriority_eq]
  refine ⟨rfl, rfl, rfl, ?_⟩
  simp [List.getElem?_set, hi]

theorem set_priority_spec_witness :
    set_priority 150 7 prioTable =
        (60, prioTable.set 2
          { prioProc with
            priority := max 0 (min 150 100) }) ∧
      set_priority 5 9 prioTable = (-1, prioTable) :=
  ⟨(set_priority_spec prioTable 150 7).1 2 _
      ⟨rfl, by decide, rfl, fun j q hj hq => by
        rcases j with _ | _ | j
        · simp only [prioTable, List.getElem?_cons_zero, Option.some.injEq] at hq
          subst hq; decide
        · simp only [prioTable, List.getElem?_cons_succ, List.getElem?_cons_zero,
            Option.some.injEq] at hq
          subst hq; decide
        · omega⟩,
    (set_priority_spec prioTable 5 9).2.1 (by decide)⟩

theorem set_priority_twice_witness :
    (set_priority (-3) 7 prioTable).1 = 60 ∧
    (set_priority 150 7 (set_priority (-3) 7 prioTable).2).1 = max 0 (min (-3) 100) ∧
    (set_priority 150 7 (set_priority (-3) 7 prioTable).2).2 =
      prioTable.set 2
        { prioProc with
          priority := max 0 (min 150 100) } ∧
    (set_priority 150 7 (set_priority (-3) 7 prioTable).2).2[2]? =
      some { prioProc with
        priority := max 0 (min 150 100) } :=
  (set_priority_twice prioTable (-3) 150 7).2 2 _
    ⟨rfl, by decide, rfl, fun j q hj hq => by
      rcases j with _ | _ | j
      · simp only [prioTable, List.getElem?_cons_zero, Option.some.injEq] at hq
        subst hq; decide
      · simp only [prioTable, List.getElem?_cons_succ, List.getElem?_cons_zero,
          Option.some.injEq] at hq
        subst hq; decide
      · omega⟩

/-- C7: when slot `i` is the UNUSED slot of lowest index and the kernel stack
is allocated, `allocproc` returns slot `i` and leaves the state changed only in
`nextpid`, which is one more, and in slot `i`, which is EMBRYO with pid the old
`nextpid`, ctime = etime = ticks, rtime = tmp_wtime = n_run = 0, priority 60,
position_priority 0, io 0, tickflag -1, the five queue counters 0, and cur_q 0
under MLFQ and -1 otherwise.  It returns a slot only in that way.  When no slot
is UNUSED it returns null and leaves the state as it was.  A table with an
UNUSED slot has a first one. -/
theorem allocproc_spec (pol : Policy) (kalloc : Nat) (k : Kernel) :
    (∀ i p, FirstUnused k.proc i p → kalloc ≠ 0 →
      allocproc pol kalloc k =
        (some i,
          { k with
            proc := k.proc.set i
              { p with
                state := .EMBRYO, pid := k.nextpid, kstack := kalloc,
                ctime := k.ticks, etime := k.ticks, rtime := 0, tmp_wtime := 0,
                n_run := 0, priority := 60, timeslice := 0, position_priority := 0,
                io := 0, tickflag := -1, cur_q := if pol = .MLFQ then 0 else -1,
                q0 := 0, q1 := 0, q2 := 0, q3 := 0, q4 := 0 }
            nextpid := k.nextpid + 1 })) ∧
    (∀ i, (allocproc pol kalloc k).1 = some i →
      kalloc ≠ 0 ∧ ∃ p, FirstUnused k.proc i p) ∧
    ((∀ p ∈ k.proc, p.state ≠ .UNUSED) → allocproc pol kalloc k = (none, k)) ∧
    ((∃ q ∈ k.proc, q.state = .UNUSED) → ∃ i p, FirstUnused k.proc i p) := by
  refine ⟨fun i p h hk => ?_, fun i h => ?_, fun h => ?_,
    fun h => exists_first_slot (fun q => q.state = .UNUSED) k.proc h⟩
  · have hf := findUnused_of_firstUnused k.proc 0 i p h
    rw [Nat.zero_add] at hf
    unfold allocproc
    rw [hf]
    simp [hk, initSlot]
  · unfold allocproc at h
    cases hf : findUnused k.proc 0 with
    | none => rw [hf] at h; cases h
    | some jp =>
      obtain ⟨j, p⟩ := jp
      rw [hf] at h
      by_cases hk : kalloc = 0
      · simp [hk] at h
      · simp only [hk, if_false, Option.some.injEq] at h
        subst h
        obtain ⟨i0, hi0, hfu⟩ := firstUnused_of_findUnused _ _ _ _ hf
        rw [Nat.zero_add] at hi0
        subst hi0
        exact ⟨hk, p, hfu⟩
  · exact allocproc_of_not_found pol kalloc k (findUnused_of_none _ _ h)

theorem allocproc_spec_witness :
    allocproc .MLFQ 4096 allocKernel =
        (some 1,
          { allocKernel with
            proc := allocKernel.proc.set 1
              { Proc.zero with
                state := .EMBRYO, pid := allocKernel.nextpid, kstack := 4096,
                ctime := allocKernel.ticks, etime := allocKernel.ticks, rtime := 0,
                tmp_wtime := 0, n_run := 0, priority := 60, timeslice := 0,
                position_priority := 0, io := 0, tickflag := -1,
                cur_q := if Policy.MLFQ = .MLFQ then 0 else -1,
                q0 := 0, q1 := 0, q2 := 0, q3 := 0, q4 := 0 }
            nextpid := allocKernel.nextpid + 1 }) ∧
      allocproc .PBS 4096 { allocKernel with proc := prioTable.tail } =
        (none, { allocKernel with proc := prioTable.tail }) :=
  ⟨(allocproc_spec .MLFQ 4096 allocKernel).1 1 Proc.zero
      ⟨rfl, rfl, fun j q hj hq => by
        rcases j with _ | j
        · simp only [allocKernel, List.getElem?_cons_zero, Option.some.injEq] at hq
          subst hq; decide
        · omega⟩ (by decide),
    (allocproc_spec .PBS 4096 { allocKernel with proc := prioTable.tail }).2.2.1 (by decide)⟩

/-- C8 as stated fails: `nextpid` is an `int`.  From the state after boot
(nextpid = 1), in a table of one slot, 2^31 calls of `allocproc` that each fail
on the kernel stack assign the pids 1, 2, ..., 2147483647 and then
-2147483648: the last two pids assigned are 2147483647 and -2147483648, and
the sequence is not increasing. -/
theorem pid_counter_wraps :
    (assignedPids .RR (List.replicate 2147483648 (.alloc 0)) (bootKernel 1))[2147483646]? =
      some 2147483647 ∧
    (assignedPids .RR (List.replicate 2147483648 (.alloc 0)) (bootKernel 1))[2147483647]? =
      some (-2147483648) ∧
    ¬ (assignedPids .RR (List.replicate 2147483648 (.alloc 0)) (bootKernel 1)).Pairwise
        (· < ·) := by
  have hL := assignedPids_failed .RR 2147483648 (bootKernel 1) Proc.zero rfl rfl
    (by decide) (by decide)
  have hn : (bootKernel 1).nextpid = 1 := rfl
  rw [hL, hn]
  have e1 : ((List.range 2147483648).map fun j : Nat => toInt32 (1 + (j : Int)))[2147483646]? =
      some 2147483647 := by
    rw [List.getElem?_map, List.getElem?_range (by omega)]
    show some (toInt32 (1 + ((2147483646 : Nat) : Int))) = some 2147483647
    unfold toInt32
    norm_num
  have e2 : ((List.range 2147483648).map fun j : Nat => toInt32 (1 + (j : Int)))[2147483647]? =
      some (-2147483648) := by
    rw [List.getElem?_map, List.getElem?_range (by omega)]
    show some (toInt32 (1 + ((2147483647 : Nat) : Int))) = some (-2147483648)
    unfold toInt32
    norm_num
  refine ⟨e1, e2, fun h => ?_⟩
  have hlen : ((List.range 2147483648).map fun j : Nat => toInt32 (1 + (j : Int))).length =
      2147483648 := by
    rw [List.length_map, List.length_range]
  have hlt := List.pairwise_iff_getElem.1 h 2147483646 2147483647
    (by rw [hlen]; omega) (by rw [hlen]; omega) (by omega)
  rw [List.getElem_eq_iff.2 e1, List.getElem_eq_iff.2 e2] at hlt
  omega

/-- C8, amended: along every run of allocations, whether the kernel stack is
obtained or not, and whatever the rest of the kernel does to the table in
between, that starts with the counter at `nextpid` (1 after boot) and assigns
so few pids that the counter does not pass 2^31 (at most 2^31 - 1 pids after
boot), the pids assigned are strictly increasing in the order of assignment,
so no pid is assigned twice, and none is below the `nextpid` the run starts
with. -/
theorem assigned_pids_strictly_increasing (pol : Policy) (es : List Event) (k : Kernel)
    (h0 : -2147483648 ≤ k.nextpid)
    (h1 : k.nextpid + (assignedPids pol es k).length ≤ 2147483648) :
    (assignedPids pol es k).Pairwise (· < ·) ∧
    (assignedPids pol es k).Nodup ∧
    ∀ pid ∈ assignedPids pol es k, k.nextpid ≤ pid := by
  obtain ⟨h2, h3⟩ := assignedPids_increasing pol es k h0 h1
  exact ⟨h2, h2.imp (fun h => ne_of_lt h), h3⟩

theorem assigned_pids_strictly_increasing_witness :
    (bootKernel 2).nextpid = 1 ∧
    assignedPids .MLFQ pidRun (bootKernel 2) = [1, 2, 3] ∧
    (assignedPids .MLFQ pidRun (bootKernel 2)).Pairwise (· < ·) ∧
    (assignedPids .MLFQ pidRun (bootKernel 2)).Nodup :=
  ⟨rfl, by decide,
    (assigned_pids_strictly_increasing .MLFQ pidRun (bootKernel 2) (by decide) (by decide)).1,
    (assigned_pids_strictly_increasing .MLFQ pidRun (bootKernel 2) (by decide) (by decide)).2.1⟩

/-- C9: in a table in which the caller has a ZOMBIE child, let slot `i` be
the first ZOMBIE child of the caller in table order (there is one).  Then
`wait` returns that child's pid and leaves the table changed only in slot `i`,
which is UNUSED with pid 0, no parent, an empty name, killed = 0 and no kernel
stack; `waitx` returns the same value and leaves the same table. -/
theorem wait_reaps_first_zombie_child (t : List Proc) (curproc : Nat) :
    ((∃ q ∈ t, q.parent = some curproc ∧ q.state = .ZOMBIE) →
      ∃ i p, FirstZombieChild t curproc i p) ∧
    ∀ i p, FirstZombieChild t curproc i p →
      wait curproc t =
          .ret p.pid (t.set i { p with state := .UNUSED, pid := 0, parent := none,
                                        name := "", killed := 0, kstack := 0 }) ∧
        (waitx curproc t).res = wait curproc t ∧
        ∀ j, j ≠ i →
          (t.set i { p with state := .UNUSED, pid := 0, parent := none,
                            name := "", killed := 0, kstack := 0 })[j]? = t[j]? := by
  refine ⟨fun h => ?_, fun i p h => ?_⟩
  · obtain ⟨i, p, h1, ⟨h2, h3⟩, h4⟩ :=
      exists_first_slot (fun q => q.parent = some curproc ∧ q.state = .ZOMBIE) t h
    exact ⟨i, p, h1, h2, h3, h4⟩
  have hs := waitScan_of_firstZombieChild curproc t 0 false i p h
  rw [Nat.zero_add] at hs
  refine ⟨?_, ?_, fun j hj => ?_⟩
  · unfold wait
    rw [hs]
    rfl
  · unfold waitx wait
    rw [hs]
  · rw [List.getElem?_set, if_neg (fun h => hj h.symm)]

theorem wait_reaps_first_zombie_child_witness :
    wait 0 waitTable =
        .ret 3 (waitTable.set 2
          { zombieChild with
            state := .UNUSED, pid := 0, parent := none, name := "", killed := 0,
            kstack := 0 }) ∧
      (waitx 0 waitTable).res = wait 0 waitTable :=
  have h := (wait_reaps_first_zombie_child waitTable 0).2 2 _
    ⟨rfl, rfl, rfl, fun j q hj hq => by
      rcases j with _ | _ | j
      · simp only [waitTable, List.getElem?_cons_zero, Option.some.injEq] at hq
        subst hq; decide
      · simp only [waitTable, List.getElem?_cons_succ, List.getElem?_cons_zero,
          Option.some.injEq] at hq
        subst hq; decide
      · omega⟩
  ⟨h.1, h.2.1⟩

/-- C10: when slot `i` holds the ZOMBIE child that `waitx` reaps (the first
ZOMBIE child of the caller), `waitx` returns its pid and stores the child's
rtime through `rtime` and etime - ctime - rtime + 1 through `wtime`, so the two
values stored add up to etime - ctime + 1; for a child with rtime 3 that
exited 8 ticks after its creation it stores rtime 3 and wtime 5 + 1. -/
theorem waitx_reports_times (t : List Proc) (curproc i : Nat) (p : Proc)
    (h : FirstZombieChild t curproc i p) :
    (∃ t1, (waitx curproc t).res = .ret p.pid t1) ∧
    (waitx curproc t).rtime = some p.rtime ∧
    (waitx curproc t).wtime = some (p.etime - p.ctime - p.rtime + 1) ∧
    (∀ r w, (waitx curproc t).rtime = some r → (waitx curproc t).wtime = some w →
      r + w = p.etime - p.ctime + 1) ∧
    (p.rtime = 3 → p.etime = p.ctime + 8 →
      (waitx curproc t).rtime = some 3 ∧ (waitx curproc t).wtime = some (5 + 1)) := by
  have hs := waitScan_of_firstZombieChild curproc t 0 false i p h
  rw [Nat.zero_add] at hs
  have hr : (waitx curproc t).rtime = some p.rtime := by
    unfold waitx
    rw [hs]
  have hw : (waitx curproc t).wtime = some (p.etime - p.ctime - p.rtime + 1) := by
    unfold waitx
    rw [hs]
  refine ⟨⟨_, by unfold waitx; rw [hs]⟩, hr, hw, fun r w h1 h2 => ?_, fun h3 h8 => ?_⟩
  · rw [hr] at h1
    rw [hw] at h2
    simp only [Option.some.injEq] at h1 h2
    omega
  · rw [hr, hw, h3, h8]
    refine ⟨rfl, ?_⟩
    congr 1
    omega

theorem waitx_reports_times_witness :
    (waitx 0 waitTable).rtime = some 3 ∧ (waitx 0 waitTable).wtime = some (5 + 1) :=
  (waitx_reports_times waitTable 0 2 zombieChild
    ⟨rfl, rfl, rfl, fun j q hj hq => by
      rcases j with _ | _ | j
      · simp only [waitTable, List.getElem?_cons_zero, Option.some.injEq] at hq
        subst hq; decide
      · simp only [waitTable, List.getElem?_cons_succ, List.getElem?_cons_zero,
          Option.some.injEq] at hq
        subst hq; decide
      · omega⟩).2.2.2.2 rfl rfl

/-- C11 as stated fails: a caller whose killed flag is set and who has a ZOMBIE
child does not get -1 from `wait` and `waitx`; they reap the child, return its
pid 3 and reset its slot. -/
theorem wait_killed_caller_reaps :
    (killedParentTable[0]?.map fun c => c.killed) = some 1 ∧
    wait 0 killedParentTable =
      .ret 3 [{ Proc.zero with state := .RUNNING, pid := 1, killed := 1 }, reap zombieChild] ∧
    (waitx 0 killedParentTable).res =
      .ret 3 [{ Proc.zero with state := .RUNNING, pid := 1, killed := 1 }, reap zombieChild] ∧
    wait 0 killedParentTable ≠ .ret (-1) killedParentTable := by
  decide

/-- C11, amended: when the caller has no children, and when the caller's
killed flag is set and none of its children is a ZOMBIE, `wait` and `waitx`
return -1 without sleeping, leave the table as it was, and `waitx` stores
nothing. -/
theorem wait_returns_minus_one (t : List Proc) (curproc : Nat) :
    ((∀ p ∈ t, p.parent ≠ some curproc) →
      wait curproc t = .ret (-1) t ∧
        waitx curproc t = { res := .ret (-1) t, wtime := none, rtime := none }) ∧
    (∀ c, t[curproc]? = some c → c.killed ≠ 0 →
      (∀ p ∈ t, ¬ (p.parent = some curproc ∧ p.state = .ZOMBIE)) →
      wait curproc t = .ret (-1) t ∧
        waitx curproc t = { res := .ret (-1) t, wtime := none, rtime := none }) :=
  ⟨wait_of_no_children curproc t, fun c hc hk h => wait_of_killed curproc t c hc hk h⟩

theorem wait_returns_minus_one_witness :
    (wait 2 waitTable = .ret (-1) waitTable ∧
      waitx 2 waitTable = { res := .ret (-1) waitTable, wtime := none, rtime := none }) ∧
    (wait 0 killedWaiterTable = .ret (-1) killedWaiterTable ∧
      waitx 0 killedWaiterTable =
        { res := .ret (-1) killedWaiterTable, wtime := none, rtime := none }) :=
  ⟨(wait_returns_minus_one waitTable 2).1 (by decide),
   (wait_returns_minus_one killedWaiterTable 0).2 _ rfl (by decide) (by decide)⟩

/-- C13: the code departs from the claim.  No live process of `prioTable` has
pid 0, yet `kill(0)` returns 0 and sets the killed flag of the UNUSED slot 0,
whose pid field is 0. -/
theorem kill_zero_hits_unused_slot :
    (∀ p ∈ prioTable, ¬ (p.state ≠ .UNUSED ∧ p.pid = 0)) ∧
    kill 0 prioTable = (0, prioTable.set 0 { Proc.zero with killed := 1 }) ∧
    kill 0 prioTable ≠ (-1, prioTable) := by
  decide

/-- C14: `wakeup(c)` keeps the number of slots; a slot that was SLEEPING with
chan `c` is the same slot with state RUNNABLE, every other slot is unchanged in
every field, and afterwards no slot is SLEEPING with chan `c`. -/
theorem wakeup_wakes_all_sleepers (t : List Proc) (c : Nat) :
    (wakeup c t).length = t.length ∧
    (∀ (j : Nat) (p : Proc), t[j]? = some p →
      (p.state = .SLEEPING ∧ p.chan = c →
        (wakeup c t)[j]? = some { p with state := .RUNNABLE }) ∧
      (¬ (p.state = .SLEEPING ∧ p.chan = c) → (wakeup c t)[j]? = some p)) ∧
    ∀ q ∈ wakeup c t, ¬ (q.state = .SLEEPING ∧ q.chan = c) := by
  refine ⟨wakeup1_length c t, fun j p hj => ⟨fun h => ?_, fun h => ?_⟩, fun q hq => ?_⟩
  · unfold wakeup
    rw [wakeup1_getElem?, hj]
    simp [wake, h]
  · unfold wakeup
    rw [wakeup1_getElem?, hj]
    simp only [Option.map_some', wake, h, if_false]
  · unfold wakeup at hq
    rw [wakeup1_eq_map, List.mem_map] at hq
    obtain ⟨p, -, hp⟩ := hq
    subst hp
    unfold wake
    by_cases h : p.state = .SLEEPING ∧ p.chan = c
    · simp [h]
    · simp [h]

/-- C16 as stated fails: `prioTable` satisfies "chan is non-null iff the state
is SLEEPING", and neither the table left by `wakeup(8)` nor the one left by
`kill(1)` does: the sleeper of slot 1 is RUNNABLE and its chan is still 8. -/
theorem wakeup_kill_break_chan_invariant :
    ChanInv prioTable ∧ ¬ ChanInv (wakeup 8 prioTable) ∧ ¬ ChanInv (kill 1 prioTable).2 ∧
    ((wakeup 8 prioTable)[1]?.map fun p => (p.state, p.chan)) = some (.RUNNABLE, 8) ∧
    ((kill 1 prioTable).2[1]?.map fun p => (p.state, p.chan)) = some (.RUNNABLE, 8) := by
  unfold ChanInv
  decide

/-- C16, amended: if "chan is non-null iff the state is SLEEPING" holds of
every slot before `wakeup(c)` or `kill(pid)`, then after the operation every
SLEEPING slot has a non-null chan, and every slot with a non-null chan is
SLEEPING or RUNNABLE (a slot just woken keeps its chan). -/
theorem wakeup_kill_keep_sleepers_chan (t : List Proc) (c : Nat) (pid : Int)
    (h : ChanInv t) :
    (∀ q ∈ wakeup c t,
      (q.state = .SLEEPING → q.chan ≠ 0) ∧
      (q.chan ≠ 0 → q.state = .SLEEPING ∨ q.state = .RUNNABLE)) ∧
    (∀ q ∈ (kill pid t).2,
      (q.state = .SLEEPING → q.chan ≠ 0) ∧
      (q.chan ≠ 0 → q.state = .SLEEPING ∨ q.state = .RUNNABLE)) := by
  constructor
  · intro q hq
    unfold wakeup at hq
    rw [wakeup1_eq_map, List.mem_map] at hq
    obtain ⟨p, hp, hpq⟩ := hq
    have hinv := h p hp
    subst hpq
    unfold wake
    by_cases hw : p.state = .SLEEPING ∧ p.chan = c
    · rw [if_pos hw]
      exact ⟨fun _ => hinv.2 hw.1, fun _ => Or.inr rfl⟩
    · rw [if_neg hw]
      exact ⟨fun hs => hinv.2 hs, fun hc => Or.inl (hinv.1 hc)⟩
  · intro q hq
    rcases kill_mem pid t q hq with hq | ⟨p, hp, hpq⟩
    · have hinv := h q hq
      exact ⟨fun hs => hinv.2 hs, fun hc => Or.inl (hinv.1 hc)⟩
    · have hinv := h p hp
      subst hpq
      unfold killMark
      by_cases hs : p.state = .SLEEPING
      · refine ⟨fun _ => hinv.2 hs, fun _ => Or.inr ?_⟩
        show (if p.state = .SLEEPING then ProcState.RUNNABLE else p.state) = .RUNNABLE
        rw [if_pos hs]
      · refine ⟨fun hs1 => ?_, fun hc => absurd (hinv.1 hc) hs⟩
        have hs2 : (if p.state = .SLEEPING then ProcState.RUNNABLE else p.state) = .SLEEPING :=
          hs1
        rw [if_neg hs] at hs2
        exact absurd hs2 hs

theorem wakeup_kill_keep_sleepers_chan_witness :
    (∀ q ∈ wakeup 8 prioTable,
      (q.state = .SLEEPING → q.chan ≠ 0) ∧
      (q.chan ≠ 0 → q.state = .SLEEPING ∨ q.state = .RUNNABLE)) ∧
    (∀ q ∈ (kill 1 prioTable).2,
      (q.state = .SLEEPING → q.chan ≠ 0) ∧
      (q.chan ≠ 0 → q.state = .SLEEPING ∨ q.state = .RUNNABLE)) :=
  wakeup_kill_keep_sleepers_chan prioTable 8 1 (by unfold ChanInv; decide)

/-- C15: when the process in slot `curproc` is not init, `exit` leaves a table
in which that slot is ZOMBIE with etime equal to the current tick, every slot
whose parent was `curproc` has init as parent, every other slot has the parent
it had, and no slot has `curproc` as parent; `exit` called by init ends in the
panic "init exiting". -/
theorem exit_reparents_children (addr : Nat → Nat) (initproc curproc : Nat) (ticks : Int)
    (t : List Proc) :
    (∀ c, t[curproc]? = some c → curproc ≠ initproc →
      ∃ t1, exit addr initproc curproc ticks t = .ok t1 ∧
        (∃ c1, t1[curproc]? = some c1 ∧ c1.state = .ZOMBIE ∧ c1.etime = ticks) ∧
        (∀ (j : Nat) (p : Proc), t[j]? = some p →
          ∃ p1, t1[j]? = some p1 ∧
            (p.parent = some curproc → p1.parent = some initproc) ∧
            (p.parent ≠ some curproc → p1.parent = p.parent)) ∧
        (∀ (j : Nat) (p1 : Proc), t1[j]? = some p1 → p1.parent ≠ some curproc)) ∧
    exit addr initproc initproc ticks t = .error "init exiting" := by
  refine ⟨fun c hc hne => ?_, by simp [exit]⟩
  obtain ⟨t1, hexit, hlen, hslots⟩ := exit_slots addr initproc curproc ticks t c hc hne
  refine ⟨t1, hexit, ?_, fun j p hj => ?_, fun j p1 hj1 => ?_⟩
  · obtain ⟨s, hs, hget⟩ := hslots curproc c hc
    refine ⟨_, hget, hs rfl, ?_⟩
    simp
  · obtain ⟨s, -, hget⟩ := hslots j p hj
    refine ⟨_, hget, fun h => ?_, fun h => ?_⟩
    · simp [h]
    · simp [h]
  · have hjlt : j < t.length := by
      by_contra hge
      rw [List.getElem?_eq_none (by omega)] at hj1
      cases hj1
    obtain ⟨s, -, hget⟩ := hslots j t[j] (List.getElem?_eq_getElem hjlt)
    rw [hget] at hj1
    simp only [Option.some.injEq] at hj1
    subst hj1
    by_cases hpar : t[j].parent = some curproc
    · simp only [hpar, if_true, ne_eq, Option.some.injEq]
      exact fun h => hne h.symm
    · simp only [hpar, if_false, ne_eq, not_false_eq_true]

theorem exit_reparents_children_witness :
    (∃ t1, exit slotAddr 0 1 77 exitTable = .ok t1 ∧
        (∃ c1, t1[1]? = some c1 ∧ c1.state = .ZOMBIE ∧ c1.etime = 77) ∧
        (∀ (j : Nat) (p : Proc), exitTable[j]? = some p →
          ∃ p1, t1[j]? = some p1 ∧
            (p.parent = some 1 → p1.parent = some 0) ∧
            (p.parent ≠ some 1 → p1.parent = p.parent)) ∧
        (∀ (j : Nat) (p1 : Proc), t1[j]? = some p1 → p1.parent ≠ some 1)) ∧
      exit slotAddr 0 0 77 exitTable = .error "init exiting" :=
  ⟨(exit_reparents_children slotAddr 0 1 77 exitTable).1 _ rfl (by decide),
   (exit_reparents_children slotAddr 0 0 77 exitTable).2⟩

/-- C17: the code departs from the claim.  In `allocKernel` every UNUSED slot
has pid 0.  When `kalloc` fails in `allocproc`, and when `copyuvm` fails in
`fork`, slot 1 is left UNUSED with pid 2, so the invariant does not hold
afterwards. -/
theorem alloc_failure_leaves_pid :
    UnusedPidZero allocKernel.proc ∧
    ((allocproc .RR 0 allocKernel).2.proc[1]?.map fun p => (p.state, p.pid)) =
      some (.UNUSED, 2) ∧
    ¬ UnusedPidZero (allocproc .RR 0 allocKernel).2.proc ∧
    ((fork .RR 4096 0 0 allocKernel).2.proc[1]?.map fun p => (p.state, p.pid)) =
      some (.UNUSED, 2) ∧
    ¬ UnusedPidZero (fork .RR 4096 0 0 allocKernel).2.proc := by
  unfold UnusedPidZero
  decide

/-- C18 as stated fails: run as `setPriority 150 7` on a table in which the
process with pid 7 has priority 60, the utility prints that the priority
should be in the range [0,100] and that it is not updated, and leaves the
table as it was: the priority stays 60 and is not set to 100. -/
theorem main_rejects_priority_above_100 :
    atoiModel ['1', '5', '0'] = 150 ∧ atoiModel ['7'] = 7 ∧
    (prioTable[2]?.map fun p => (p.state, p.pid, p.priority)) = some (.RUNNABLE, 7, 60) ∧
    main atoiModel argvAbove prioTable = ([.shouldBeInRange, .notUpdated], prioTable) := by
  decide

/-- C18, amended: run with a priority argument that does not start with '-'
and whose value is in [0,100], and with the pid of a live process (the first
live slot with that pid, its priority not being -1), the utility sets that
process's priority to the value and prints the old priority; run with a
priority argument whose value is above 100 it prints that the priority should
be in [0,100] and leaves the table as it was. -/
theorem main_sets_priority_in_range (atoi : List Char → Int) (a0 a1 a2 : List Char)
    (rest : List (List Char)) (t : List Proc) :
    (∀ i p, a2.head? ≠ some '-' → a1.head? ≠ some '-' → 0 ≤ atoi a1 → atoi a1 ≤ 100 →
      FirstLive t (atoi a2) i p → p.priority ≠ -1 →
      main atoi (a0 :: a1 :: a2 :: rest) t =
        ([.updated (atoi a2), .oldPriority p.priority],
          t.set i { p with priority := atoi a1 })) ∧
    (a2.head? ≠ some '-' → 100 < atoi a1 →
      main atoi (a0 :: a1 :: a2 :: rest) t = ([.shouldBeInRange, .notUpdated], t)) := by
  refine ⟨fun i p h2 h1 hlo hhi hfirst hold => ?_, fun h2 hgt => ?_⟩
  · have hclamp : clampPriority (atoi a1) = atoi a1 := by
      unfold clampPriority
      rw [if_neg (by omega), if_neg (by omega)]
    have hset : set_priority (atoi a1) (atoi a2) t =
        (p.priority, t.set i { p with priority := atoi a1 }) := by
      unfold set_priority
      rw [hclamp]
      exact setPriorityLoop_of_firstLive _ _ t (-1) i p hfirst
    simp [main, h2, h1, hlo, hhi, hset, hold]
  · have hnot : ¬ atoi a1 ≤ 100 := by omega
    simp [main, h2, hnot]

theorem main_sets_priority_in_range_witness :
    main atoiModel argvInRange prioTable =
        ([.updated (atoiModel ['7']), .oldPriority prioProc.priority],
          prioTable.set 2 { prioProc with priority := atoiModel ['2', '0'] }) ∧
      main atoiModel argvAbove prioTable = ([.shouldBeInRange, .notUpdated], prioTable) :=
  ⟨(main_sets_priority_in_range atoiModel _ ['2', '0'] ['7'] [] prioTable).1 2 prioProc
      (by decide) (by decide) (by decide) (by decide)
      ⟨rfl, by decide, by decide, fun j q hj hq => by
        rcases j with _ | _ | j
        · simp only [prioTable, List.getElem?_cons_zero, Option.some.injEq] at hq
          subst hq; decide
        · simp only [prioTable, List.getElem?_cons_succ, List.getElem?_cons_zero,
            Option.some.injEq] at hq
          subst hq; decide
        · omega⟩
      (by decide),
   (main_sets_priority_in_range atoiModel _ ['1', '5', '0'] ['7'] [] prioTable).2
      (by decide) (by decide)⟩

/-- C19 as stated fails: at tick 5 a RUNNING slot whose tickflag is already 5
does not get "only tmp_wtime + 1": the tick handler raises its rtime from 2 to
3 and leaves its tmp_wtime 0. -/
theorem tick_counts_running_slot_with_equal_tickflag :
    tickKernel.ticks = 5 ∧
    (tickKernel.proc.map fun p => (p.state, p.tickflag, p.rtime, p.tmp_wtime)) =
      [(.RUNNING, 5, 2, 0)] ∧
    ((updateruntime .RR tickKernel).proc.map fun p =>
      (p.state, p.tickflag, p.rtime, p.tmp_wtime)) = [(.RUNNING, 5, 3, 0)] := by
  decide

/-- C19, amended: the tick handler leaves every slot in its place.  A RUNNING
slot, whatever its tickflag, gets rtime + 1, tmp_wtime = 0 and tickflag =
current tick (and q[cur_q] + 1 under MLFQ), and nothing else changes in it.
Every other slot that is not UNUSED keeps its state, rtime, tickflag and queue
counters and gets tmp_wtime + 1, which is its only change, except under MLFQ
when this value exceeds 200 and cur_q is not 0: then the aging step of the same
tick makes tmp_wtime 0, cur_q one less and position_priority one more than the
largest_position of the queue it moves into, and that is all that changes.  An
UNUSED slot is unchanged. -/
theorem tick_accounting (pol : Policy) (k : Kernel) (j : Nat) (p : Proc)
    (hj : k.proc[j]? = some p) :
    ∃ p1, (updateruntime pol k).proc[j]? = some p1 ∧
      (p.state = .RUNNING →
        p1 = if pol = .MLFQ then
            ({ p with rtime := p.rtime + 1, tmp_wtime := 0, tickflag := k.ticks } : Proc).qIncr
          else { p with rtime := p.rtime + 1, tmp_wtime := 0, tickflag := k.ticks }) ∧
      (p.state ≠ .RUNNING → p.state ≠ .UNUSED →
        p1.state = p.state ∧ p1.rtime = p.rtime ∧ p1.tickflag = p.tickflag ∧
        p1.q0 = p.q0 ∧ p1.q1 = p.q1 ∧ p1.q2 = p.q2 ∧ p1.q3 = p.q3 ∧ p1.q4 = p.q4 ∧
        (¬ (pol = .MLFQ ∧ 200 < p.tmp_wtime + 1 ∧ p.cur_q ≠ 0) →
          p1 = { p with tmp_wtime := p.tmp_wtime + 1 }) ∧
        (pol = .MLFQ → 200 < p.tmp_wtime + 1 → p.cur_q ≠ 0 →
          p1 = { p with
                 tmp_wtime := 0
                 cur_q := p.cur_q - 1
                 position_priority :=
                   1 + largestPosition
                     (updateLoop .MLFQ k.ticks (k.proc.take j) k.proc_queue).2
                     (p.cur_q - 1) })) ∧
      (p.state = .UNUSED → p1 = p) := by
  have h := (updateLoop_getElem? pol k.ticks k.proc k.proc_queue j p hj).1
  refine ⟨_, h, fun hr => ?_, fun hr hu => ?_, fun hu => ?_⟩
  · unfold tickSlot
    rw [account_eq, if_pos hr]
    by_cases hm : pol = .MLFQ
    · rw [if_pos hm, if_pos hm]
      rw [age_keeps]
      rintro ⟨-, h2, -⟩
      rw [(qIncr_fields _).2.1] at h2
      have h3 : (200 : Int) < 0 := h2
      omega
    · rw [if_neg hm, if_neg hm]
  · unfold tickSlot
    rw [account_eq, if_neg hr, if_pos hu]
    by_cases hm : pol = .MLFQ
    · subst hm
      rw [if_pos rfl]
      by_cases hage : ({ p with tmp_wtime := p.tmp_wtime + 1 } : Proc).state ≠ .UNUSED ∧
          AGE_CUTOFF < ({ p with tmp_wtime := p.tmp_wtime + 1 } : Proc).tmp_wtime ∧
          ({ p with tmp_wtime := p.tmp_wtime + 1 } : Proc).cur_q ≠ 0
      · rw [age_promotes _ _ hage]
        refine ⟨rfl, rfl, rfl, rfl, rfl, rfl, rfl, rfl, fun hn => ?_, fun _ _ _ => rfl⟩
        exact absurd ⟨rfl, hage.2.1, hage.2.2⟩ hn
      · rw [age_keeps _ _ hage]
        refine ⟨rfl, rfl, rfl, rfl, rfl, rfl, rfl, rfl, fun _ => rfl, fun _ h200 hc => ?_⟩
        exact absurd ⟨hu, h200, hc⟩ hage
    · rw [if_neg hm]
      exact ⟨rfl, rfl, rfl, rfl, rfl, rfl, rfl, rfl, fun _ => rfl,
        fun hm2 => absurd hm2 hm⟩
  · unfold tickSlot
    have hr : ¬ p.state = .RUNNING := by rw [hu]; decide
    have hu2 : ¬ p.state ≠ .UNUSED := fun h => h hu
    rw [account_eq, if_neg hr, if_neg hu2]
    by_cases hm : pol = .MLFQ
    · rw [if_pos hm, age_keeps]
      exact fun h => h.1 hu
    · rw [if_neg hm]

theorem tick_accounting_witness :
    (∃ p1, (updateruntime .RR tickKernel).proc[0]? = some p1 ∧ p1.rtime = 3 ∧
      p1.tmp_wtime = 0 ∧ p1.tickflag = 5) ∧
    ∃ p2, (updateruntime .MLFQ agingKernel).proc[0]? = some p2 ∧
      p2 = { agingProc with tmp_wtime := 0, cur_q := 3, position_priority := 8 } := by
  constructor
  · obtain ⟨p1, h1, h2, -⟩ := tick_accounting .RR tickKernel 0 _ rfl
    refine ⟨p1, h1, ?_⟩
    rw [h2 rfl]
    decide
  · obtain ⟨p2, h1, -, h3, -⟩ := tick_accounting .MLFQ agingKernel 0 agingProc rfl
    refine ⟨p2, h1, ?_⟩
    rw [(h3 (by decide) (by decide)).2.2.2.2.2.2.2.2.2 rfl (by decide) (by decide)]
    decide

/-- C20: under MLFQ, with five queues and every cur_q in 0 .. 4, the tick
handler treats slot `j` as follows.  If the slot is not UNUSED, its tmp_wtime
after this tick's accounting exceeds 200 and its cur_q is above 0, then its
cur_q is one less, its tmp_wtime is 0, its position_priority is one more than
the largest_position of the queue it moves into, as the loop finds it, and that
largest_position is then this value.  Otherwise the slot keeps its cur_q and
position_priority and the queue data stay as they are.  A waiting process at
cur_q = 4 whose tmp_wtime was 200 ends the tick at cur_q = 3 with
tmp_wtime = 0. -/
theorem aging_promotes_waiting_slots (k : Kernel) (hq : k.proc_queue.length = 5)
    (hcur : ∀ p ∈ k.proc, 0 ≤ p.cur_q ∧ p.cur_q ≤ 4) (j : Nat) (p : Proc)
    (hj : k.proc[j]? = some p) :
    ∃ p1, (updateruntime .MLFQ k).proc[j]? = some p1 ∧
      (p.state ≠ .UNUSED ∧ 200 < waitedAfterAccounting p ∧ 0 < p.cur_q →
        p1.cur_q = p.cur_q - 1 ∧ p1.tmp_wtime = 0 ∧
        p1.position_priority =
          largestPosition (updateLoop .MLFQ k.ticks (k.proc.take j) k.proc_queue).2
            (p.cur_q - 1) + 1 ∧
        largestPosition (updateLoop .MLFQ k.ticks (k.proc.take (j + 1)) k.proc_queue).2
            (p.cur_q - 1) = p1.position_priority) ∧
      (¬ (p.state ≠ .UNUSED ∧ 200 < waitedAfterAccounting p ∧ 0 < p.cur_q) →
        p1.cur_q = p.cur_q ∧ p1.position_priority = p.position_priority ∧
        (updateLoop .MLFQ k.ticks (k.proc.take (j + 1)) k.proc_queue).2 =
          (updateLoop .MLFQ k.ticks (k.proc.take j) k.proc_queue).2) ∧
      (p.state ≠ .UNUSED → p.state ≠ .RUNNING → p.cur_q = 4 → p.tmp_wtime = 200 →
        p1.cur_q = 3 ∧ p1.tmp_wtime = 0) := by
  obtain ⟨h1, h2⟩ := updateLoop_getElem? .MLFQ k.ticks k.proc k.proc_queue j p hj
  obtain ⟨hst, hw, hc, hpp⟩ := account_fields .MLFQ k.ticks p
  obtain ⟨hc0, hc4⟩ := hcur p (List.getElem?_mem hj)
  have hlen : (updateLoop .MLFQ k.ticks (k.proc.take j) k.proc_queue).2.length = 5 := by
    rw [updateLoop_length, hq]
  have htick : ∀ pq, tickSlot .MLFQ k.ticks p pq = age (account .MLFQ k.ticks p) pq := by
    intro pq
    unfold tickSlot
    rw [if_pos rfl]
  rw [htick] at h1 h2
  have hyes : p.state ≠ .UNUSED ∧ 200 < waitedAfterAccounting p ∧ 0 < p.cur_q →
      (account .MLFQ k.ticks p).state ≠ .UNUSED ∧
        AGE_CUTOFF < (account .MLFQ k.ticks p).tmp_wtime ∧
        (account .MLFQ k.ticks p).cur_q ≠ 0 := by
    rintro ⟨a1, a2, a3⟩
    rw [hst, hw, hc]
    exact ⟨a1, a2, by omega⟩
  have hno : ¬ (p.state ≠ .UNUSED ∧ 200 < waitedAfterAccounting p ∧ 0 < p.cur_q) →
      ¬ ((account .MLFQ k.ticks p).state ≠ .UNUSED ∧
        AGE_CUTOFF < (account .MLFQ k.ticks p).tmp_wtime ∧
        (account .MLFQ k.ticks p).cur_q ≠ 0) := by
    intro hn
    rw [hst, hw, hc]
    rintro ⟨a1, a2, a3⟩
    exact hn ⟨a1, a2, by omega⟩
  have hpromoted : p.state ≠ .UNUSED ∧ 200 < waitedAfterAccounting p ∧ 0 < p.cur_q →
      (age (account .MLFQ k.ticks p)
          (updateLoop .MLFQ k.ticks (k.proc.take j) k.proc_queue).2).1.cur_q = p.cur_q - 1 ∧
        (age (account .MLFQ k.ticks p)
          (updateLoop .MLFQ k.ticks (k.proc.take j) k.proc_queue).2).1.tmp_wtime = 0 := by
    intro hcond
    rw [age_promotes _ _ (hyes hcond)]
    exact ⟨by rw [← hc], rfl⟩
  refine ⟨_, h1, fun hcond => ?_, fun hcond => ?_, fun hu hr h4 h200 => ?_⟩
  · refine ⟨(hpromoted hcond).1, (hpromoted hcond).2, ?_, ?_⟩
    · rw [age_promotes _ _ (hyes hcond)]
      show 1 + largestPosition _ ((account .MLFQ k.ticks p).cur_q - 1) = _
      rw [hc, add_comm]
    · rw [h2, age_promotes _ _ (hyes hcond)]
      show largestPosition (setLargestPosition _ ((account .MLFQ k.ticks p).cur_q - 1) _) _ =
        1 + largestPosition _ ((account .MLFQ k.ticks p).cur_q - 1)
      rw [hc]
      have hpos := hcond.2.2
      exact largestPosition_set _ _ _ (by omega) (by rw [hlen]; omega)
  · rw [h2, age_keeps _ _ (hno hcond)]
    exact ⟨hc, hpp, rfl⟩
  · have hcond : p.state ≠ .UNUSED ∧ 200 < waitedAfterAccounting p ∧ 0 < p.cur_q := by
      refine ⟨hu, ?_, by omega⟩
      unfold waitedAfterAccounting
      rw [if_neg hr, if_pos hu]
      omega
    obtain ⟨e1, e2⟩ := hpromoted hcond
    exact ⟨by rw [e1, h4]; rfl, e2⟩

theorem aging_promotes_waiting_slots_witness :
    ∃ p1, (updateruntime .MLFQ agingKernel).proc[0]? = some p1 ∧
      p1.cur_q = 3 ∧ p1.tmp_wtime = 0 ∧ p1.position_priority = 8 := by
  obtain ⟨p1, h1, h2, -, -⟩ :=
    aging_promotes_waiting_slots agingKernel rfl (by decide) 0 agingProc rfl
  obtain ⟨e1, e2, e3, -⟩ := h2 (by decide)
  exact ⟨p1, h1, e1, e2, e3⟩

/-- C21: under every policy the dispatch of slot `i` at the tick of the state
leaves the other slots and the globals as they are, and leaves slot `i` with
state RUNNING, n_run one more, tmp_wtime 0 and io 0.  If the tickflag of the
slot differs from the tick, tickflag is the tick and rtime is one more (and
under MLFQ the counter q[cur_q] is one more), nothing else changing; if the
tickflag equals the tick, rtime, tickflag and the counters are as before.  A
second dispatch within the same tick does not raise rtime again.  The rounds of
the FCFS, PBS and MLFQ schedulers and the RR loop dispatch in this way. -/
theorem dispatch_spec (pol : Policy) (k : Kernel) (i : Nat) (p : Proc)
    (hp : k.proc[i]? = some p) :
    (∃ d, (dispatchSlot pol i k).proc[i]? = some d ∧
      d.state = .RUNNING ∧ d.n_run = p.n_run + 1 ∧ d.tmp_wtime = 0 ∧ d.io = 0 ∧
      (p.tickflag ≠ k.ticks →
        d.tickflag = k.ticks ∧ d.rtime = p.rtime + 1 ∧
        (pol ≠ .MLFQ →
          d = { p with state := .RUNNING, n_run := p.n_run + 1, tmp_wtime := 0, io := 0,
                       tickflag := k.ticks, rtime := p.rtime + 1 }) ∧
        (pol = .MLFQ →
          d = ({ p with state := .RUNNING, n_run := p.n_run + 1, tmp_wtime := 0, io := 0,
                        tickflag := k.ticks, rtime := p.rtime + 1 } : Proc).qIncr ∧
          d.q0 = p.q0 + (if p.cur_q = 0 then 1 else 0) ∧
          d.q1 = p.q1 + (if p.cur_q = 1 then 1 else 0) ∧
          d.q2 = p.q2 + (if p.cur_q = 2 then 1 else 0) ∧
          d.q3 = p.q3 + (if p.cur_q = 3 then 1 else 0) ∧
          d.q4 = p.q4 + (if p.cur_q = 4 then 1 else 0))) ∧
      (p.tickflag = k.ticks →
        d = { p with state := .RUNNING, n_run := p.n_run + 1, tmp_wtime := 0, io := 0 }) ∧
      d.rtime ≤ p.rtime + 1 ∧
      (∀ q : Proc, q.tickflag = d.tickflag → (dispatch pol k.ticks q).rtime = q.rtime) ∧
      ∃ d2, (dispatchSlot pol i (dispatchSlot pol i k)).proc[i]? = some d2 ∧
        d2.rtime = d.rtime) ∧
    (∀ j, j ≠ i → (dispatchSlot pol i k).proc[j]? = k.proc[j]?) ∧
    (dispatchSlot pol i k).nextpid = k.nextpid ∧
    (dispatchSlot pol i k).ticks = k.ticks ∧
    (dispatchSlot pol i k).proc_queue = k.proc_queue ∧
    (∀ j, (fcfsRound k).1 = some j → (fcfsRound k).2 = dispatchSlot .FCFS j k) ∧
    (∀ j, (pbsRound k).1 = some j → (pbsRound k).2 = dispatchSlot .PBS j k) ∧
    (∀ j, (mlfqRound k).1 = some j → (mlfqRound k).2 = dispatchSlot .MLFQ j k) ∧
    (p.state = .RUNNABLE → ∀ run rest,
      rrLoop run (i :: rest) k =
        ((i, k) :: (rrLoop run rest (run i (dispatchSlot .RR i k))).1,
          (rrLoop run rest (run i (dispatchSlot .RR i k))).2)) := by
  have hlt : i < k.proc.length := by
    by_contra hge
    rw [List.getElem?_eq_none (by omega)] at hp
    cases hp
  have hslot := dispatchSlot_of_some pol i k p hp
  have hget : (dispatchSlot pol i k).proc[i]? = some (dispatch pol k.ticks p) := by
    rw [hslot]
    simp [List.getElem?_set, hlt]
  obtain ⟨f1, f2, f3, f4, f5, -, -, f8⟩ := dispatch_fields pol k.ticks p
  have htwice : ∀ q : Proc, q.tickflag = (dispatch pol k.ticks p).tickflag →
      (dispatch pol k.ticks q).rtime = q.rtime := by
    intro q hq
    rw [f5] at hq
    rw [(dispatch_fields pol k.ticks q).2.2.2.2.2.2.2, if_neg (not_not.2 hq)]
  refine ⟨⟨_, hget, f1, f2, f3, f4, fun ht => ⟨f5, ?_, fun hm => ?_, fun hm => ?_⟩,
    fun ht => ?_, ?_, htwice, ?_⟩, fun j hj => ?_, ?_, ?_, ?_,
    fun j h => (schedulerRound_snd .FCFS fcfsSelect k j h).2,
    fun j h => (schedulerRound_snd .PBS pbsSelect k j h).2,
    fun j h => (schedulerRound_snd .MLFQ mlfqSelect k j h).2, fun hr run rest => ?_⟩
  · rw [f8, if_pos ht]
  · rw [dispatch_eq, if_pos ht, if_neg hm]
  · rw [dispatch_eq, if_pos ht, if_pos hm]
    exact ⟨rfl, qIncr_counters _⟩
  · rw [dispatch_eq, if_neg (not_not.2 ht)]
  · rw [f8]
    split <;> omega
  · have hget2 : (dispatchSlot pol i (dispatchSlot pol i k)).proc[i]? =
        some (dispatch pol k.ticks (dispatch pol k.ticks p)) := by
      have hticks : (dispatchSlot pol i k).ticks = k.ticks := by rw [hslot]
      rw [dispatchSlot_of_some pol i (dispatchSlot pol i k) _ hget, hticks]
      simp only [List.getElem?_set, if_true]
      rw [if_pos (by rw [hslot, List.length_set]; exact hlt)]
    exact ⟨_, hget2, htwice _ rfl⟩
  · rw [hslot]
    simp only [List.getElem?_set]
    rw [if_neg (fun h => hj h.symm)]
  · rw [hslot]
  · rw [hslot]
  · rw [hslot]
  · rw [dispatchSlot_of_some .RR i k p hp]
    simp only [rrLoop, hp, hr, ne_eq, not_true_eq_false, if_false]

theorem dispatch_spec_witness :
    ∃ d, (dispatchSlot .MLFQ 0 dispatchKernel).proc[0]? = some d ∧
      d.state = .RUNNING ∧ d.n_run = 1 ∧ d.tmp_wtime = 0 ∧ d.io = 0 ∧
      d.tickflag = 42 ∧ d.rtime = 4 ∧ d.q0 = 4 := by
  obtain ⟨⟨d, h1, h2, h3, h4, h5, h6, -⟩, -⟩ :=
    dispatch_spec .MLFQ dispatchKernel 0 _ rfl
  obtain ⟨e1, e2, -, e4⟩ := h6 (by decide)
  obtain ⟨-, e5, -⟩ := e4 rfl
  exact ⟨d, h1, h2, h3, h4, h5, e1, e2, e5⟩

/-- C22: under MLFQ the invariant "every slot that is not UNUSED has cur_q in
0 .. 4 and q[0] + q[1] + q[2] + q[3] + q[4] = rtime" holds of the slot that
`allocproc` returns (cur_q, the counters and rtime are 0), and if it holds of
the table it still holds after `allocproc`, after the dispatch of a slot that
is not UNUSED, after a round of the scheduler and after a run of the tick
handler. -/
theorem mlfq_invariant_preserved (k : Kernel) (kalloc : Nat) :
    (∀ i, (allocproc .MLFQ kalloc k).1 = some i →
      ∃ p, (allocproc .MLFQ kalloc k).2.proc[i]? = some p ∧ p.state = .EMBRYO ∧
        p.cur_q = 0 ∧ p.qSum = 0 ∧ p.rtime = 0) ∧
    (MlfqInv k.proc → MlfqInv (allocproc .MLFQ kalloc k).2.proc) ∧
    (MlfqInv k.proc → ∀ i p, k.proc[i]? = some p → p.state ≠ .UNUSED →
      MlfqInv (dispatchSlot .MLFQ i k).proc) ∧
    (MlfqInv k.proc → MlfqInv (mlfqRound k).2.proc) ∧
    (MlfqInv k.proc → MlfqInv (updateruntime .MLFQ k).proc) := by
  have hdisp : MlfqInv k.proc → ∀ (i : Nat) (p : Proc), k.proc[i]? = some p →
      p.state ≠ .UNUSED → MlfqInv (dispatchSlot .MLFQ i k).proc := by
    intro hinv i p hp hu
    rw [dispatchSlot_of_some .MLFQ i k p hp]
    exact mlfqInv_set _ _ _ hinv
      (fun _ => mlfqInv_dispatch k.ticks p (hinv p (List.getElem?_mem hp) hu))
  refine ⟨fun i hi => ?_, fun hinv => ?_, hdisp, fun hinv => ?_, fun hinv => ?_⟩
  · rcases allocproc_cases .MLFQ kalloc k with h | ⟨j, p, hp, h | h⟩
    · rw [h] at hi; cases hi
    · rw [h] at hi; cases hi
    · rw [h] at hi ⊢
      simp only [Option.some.injEq] at hi
      subst hi
      have hlt : j < k.proc.length := by
        by_contra hge
        rw [List.getElem?_eq_none (by omega)] at hp
        cases hp
      obtain ⟨e1, e2, e3, e4, -⟩ :=
        initSlot_mlfq kalloc k.ticks { p with state := .EMBRYO, pid := k.nextpid }
      refine ⟨initSlot .MLFQ kalloc k.ticks { p with state := .EMBRYO, pid := k.nextpid },
        ?_, e1, e2, e3, e4⟩
      simp [List.getElem?_set, hlt]
  · rcases allocproc_cases .MLFQ kalloc k with h | ⟨j, p, hp, h | h⟩
    · rw [h]; exact hinv
    · rw [h]
      exact mlfqInv_set _ _ _ hinv (fun hne => absurd rfl hne)
    · rw [h]
      obtain ⟨-, e2, e3, e4, -⟩ :=
        initSlot_mlfq kalloc k.ticks { p with state := .EMBRYO, pid := k.nextpid }
      exact mlfqInv_set _ _ _ hinv (fun _ => by rw [e2, e3, e4]; decide)
  · cases hsel : (mlfqRound k).1 with
    | none =>
      have hk : (mlfqRound k).2 = k := by
        unfold mlfqRound schedulerRound at hsel ⊢
        cases hs : mlfqSelect k.proc with
        | none => rfl
        | some j => rw [hs] at hsel; cases hsel
      rw [hk]; exact hinv
    | some i =>
      obtain ⟨hs, hk⟩ := schedulerRound_snd .MLFQ mlfqSelect k i hsel
      obtain ⟨p, hp, hrun, -⟩ := (selectBy_eq_some _ _ mlfqBetter_iff k.proc i).1 hs
      have hk2 : (mlfqRound k).2 = dispatchSlot .MLFQ i k := hk
      rw [hk2]
      exact hdisp hinv i p hp (by rw [hrun]; decide)
  · intro q hq
    obtain ⟨p, hp, pq1, h⟩ := updateLoop_mem .MLFQ k.ticks k.proc k.proc_queue q hq
    rw [h]
    exact mlfqInv_tickSlot k.ticks p pq1 (hinv p hp)

theorem mlfq_invariant_preserved_witness :
    MlfqInv (allocproc .MLFQ 4096 dispatchKernel).2.proc ∧
    MlfqInv (dispatchSlot .MLFQ 0 dispatchKernel).proc ∧
    MlfqInv (mlfqRound dispatchKernel).2.proc ∧
    MlfqInv (updateruntime .MLFQ dispatchKernel).proc :=
  have hinv : MlfqInv dispatchKernel.proc := by
    unfold MlfqInv
    decide
  have h := mlfq_invariant_preserved dispatchKernel 4096
  ⟨h.2.1 hinv, h.2.2.1 hinv 0 _ rfl (by decide), h.2.2.2.1 hinv, h.2.2.2.2 hinv⟩

/-- C23: in every state the MLFQ build reaches from `pinit` by allocations,
sleeps, scheduler rounds and tick-handler runs, together with the demotions of
the trap layer that bring processes into the queues 1 to 4 and the writes of
the other kernel code to fields other than cur_q and position_priority, a call
of `sleep` by the process of slot `i` leaves the other slots as they are and
the process SLEEPING on the channel in the same queue.  If its io was 0, its io is 1 and
its position_priority is the new largest_position of its queue, one more than
the old one, and strictly greater than the position_priority of every other
slot of that queue.  If its io was not 0, io and position_priority are as
before and the queue data are unchanged. -/
theorem sleep_requeues_at_tail (k : Kernel) (hk : MlfqReachable k) (chan lk i : Nat)
    (p : Proc) (hp : k.proc[i]? = some p) (hlk : lk ≠ 0) :
    ∃ k1 p1, sleep .MLFQ chan lk (some i) k = .ok k1 ∧ k1.proc[i]? = some p1 ∧
      p1.state = .SLEEPING ∧ p1.chan = chan ∧ p1.cur_q = p.cur_q ∧
      (p.io = 0 →
        p1.io = 1 ∧
        p1.position_priority = largestPosition k1.proc_queue p.cur_q ∧
        p1.position_priority = largestPosition k.proc_queue p.cur_q + 1 ∧
        ∀ (j : Nat) (q : Proc), j ≠ i → k1.proc[j]? = some q → q.cur_q = p.cur_q →
          q.position_priority < p1.position_priority) ∧
      (p.io ≠ 0 →
        p1.io = p.io ∧ p1.position_priority = p.position_priority ∧
        k1.proc_queue = k.proc_queue) ∧
      ∀ j, j ≠ i → k1.proc[j]? = k.proc[j]? := by
  have hinv := reachable_queueInv k hk
  obtain ⟨h0, h4, hpos⟩ := hinv.2 p (List.getElem?_mem hp)
  have hlt : i < k.proc.length := by
    by_contra hge
    rw [List.getElem?_eq_none (by omega)] at hp
    cases hp
  have hothers : ∀ j, j ≠ i →
      (k.proc.set i
        { (sleepRequeue p k.proc_queue).1 with chan := chan, state := .SLEEPING })[j]? =
        k.proc[j]? := by
    intro j hj
    rw [List.getElem?_set, if_neg (fun h => hj h.symm)]
  refine ⟨_, { (sleepRequeue p k.proc_queue).1 with chan := chan, state := .SLEEPING },
    sleep_ok chan lk i k p hp hlk, by simp [List.getElem?_set, hlt], rfl, rfl, ?_,
    fun hio => ?_, fun hio => ?_, hothers⟩
  · rw [sleepRequeue_eq]
    by_cases hio : p.io = 0
    · rw [if_pos hio]
    · rw [if_neg hio]
  · obtain ⟨-, g2, -⟩ := queuesOk_requeue k.proc_queue p.cur_q hinv.1 h0 h4
    refine ⟨?_, ?_, ?_, fun j q hj hq hc => ?_⟩
    · rw [sleepRequeue_eq, if_pos hio]
    · rw [sleepRequeue_eq, if_pos hio]
      exact g2.symm
    · rw [sleepRequeue_eq, if_pos hio]
      exact add_comm _ _
    · rw [hothers j hj] at hq
      have hq2 := (hinv.2 q (List.getElem?_mem hq)).2.2
      rw [hc] at hq2
      rw [sleepRequeue_eq, if_pos hio]
      show q.position_priority < 1 + largestPosition k.proc_queue p.cur_q
      omega
  · rw [sleepRequeue_eq, if_neg hio]
    exact ⟨rfl, rfl, rfl⟩

theorem sleep_requeues_at_tail_witness :
    ∃ k1 p1, sleep .MLFQ 8 1 (some 0) demotedKernel = .ok k1 ∧ k1.proc[0]? = some p1 ∧
      p1.state = .SLEEPING ∧ p1.io = 1 ∧ p1.cur_q = 2 ∧ p1.position_priority = 3 ∧
      largestPosition k1.proc_queue 2 = 3 ∧
      (k1.proc[1]?.map fun q => (q.cur_q, q.position_priority)) = some (2, 2) := by
  have hreach : MlfqReachable demotedKernel :=
    reachable_setState 0 .RUNNING _
      (reachable_runAndDemote 1 _
        (reachable_runAndDemote 1 _
          (reachable_runAndDemote 0 _
            (reachable_runAndDemote 0 _
              (MlfqReachable.alloc 4096 _
                (MlfqReachable.alloc 4096 _ (MlfqReachable.boot 3)))
              (by decide))
            (by decide))
          (by decide))
        (by decide))
  obtain ⟨k1, p1, h1, h2, h3, -, h5, h6, -, h8⟩ :=
    sleep_requeues_at_tail demotedKernel hreach 8 1 0 _ rfl (by decide)
  obtain ⟨e1, e2, e3, -⟩ := h6 (by decide)
  have hc : demotedKernel.proc[0].cur_q = 2 := by decide
  rw [hc] at e2 e3
  refine ⟨k1, p1, h1, h2, h3, e1, ?_, ?_, ?_, ?_⟩
  · rw [h5]; decide
  · rw [e3]; decide
  · rw [← e2, e3]; decide
  · rw [h8 1 (by decide)]; decide

end Xv6
